import Mathlib

/-!
# Tubular dispatcher: bindings, destinations and label reference counts

A shallow embedding of `internal/dispatcher.go`: the `Dispatcher` methods
`AddBinding`, `RemoveBinding`, `Bindings` and `RegisterSocket` become pure
functions on an explicit state made of the label allocator and the two kernel
maps.  Go strings and byte slices are lists of bytes (`List Nat`), machine
integers are `Nat` / `Int`.

The kernel maps are association lists read in iteration order.  `Lookup` and
`Delete` fail exactly when the key is absent; `Update` (flags `0`, create or
overwrite) can fail for reasons outside the state (capacity, memory), which
the caller of the model passes in as a flag.  The binding table is a
longest-prefix-match map: its lookup (`KMap.LookupLPM`) answers with the entry
of the key when there is one and otherwise with the entry of the longest
prefix that covers the key, while its update and delete act on the exact key.
`Bindings` can also fail because `labels.List()` or the iteration of the map
fails, which the caller of the model passes in as well.

`CreateDispatcher` acts on a world made of the paths that exist on the file
system and the handles the caller holds open; which of its steps fail is given
by the caller of the model, and `os.RemoveAll` removes the path and everything
below it.

`labels.go` and `binding.go` are not among the sources: the label allocator,
`Binding`, `Binding.key` and `newBindingFromBPF` follow the specification, and
their doc comments say so.
-/

namespace Tubular

/-! ## Basic types -/

/-- A Go `string`: its sequence of bytes. -/
abbrev GoString := List Nat

/-- The bytes of an ASCII literal, to write labels readably. -/
def ascii (s : String) : GoString := s.data.map Char.toNat

/-- Source: `type labelID uint32`. -/
abbrev labelID := Nat

/-- Source: `type Domain uint8`. -/
abbrev Domain := Nat

/-- Source: `type Protocol uint8`. -/
abbrev Protocol := Nat

/-- Source: `type SocketCookie uint64`. -/
abbrev SocketCookie := Nat

/-- Go `unix.AF_INET`. -/
def unix.AF_INET : Int := 2

/-- Go `unix.AF_INET6`. -/
def unix.AF_INET6 : Int := 10

/-- Go `unix.SOCK_STREAM`. -/
def unix.SOCK_STREAM : Int := 1

/-- Go `unix.SOCK_DGRAM`. -/
def unix.SOCK_DGRAM : Int := 2

/-- Go `unix.IPPROTO_TCP`. -/
def unix.IPPROTO_TCP : Int := 6

/-- Go `unix.IPPROTO_UDP`. -/
def unix.IPPROTO_UDP : Int := 17

/-- Source: `AF_INET Domain = unix.AF_INET`. -/
def AF_INET : Domain := 2

/-- Source: `AF_INET6 Domain = unix.AF_INET6`. -/
def AF_INET6 : Domain := 10

/-- Source: `TCP Protocol = unix.IPPROTO_TCP`. -/
def TCP : Protocol := 6

/-- Source: `UDP Protocol = unix.IPPROTO_UDP`. -/
def UDP : Protocol := 17

/-- The conversion of a Go `int` to `uint8` (`Domain(domain)`, `Protocol(proto)`). -/
def toUint8 (n : Int) : Nat := (n % 256).toNat

deriving instance DecidableEq for Except

/-! ## Kernel maps -/

/-- A kernel map handle (`*ebpf.Map`): its entries in iteration order. -/
abbrev KMap (κ ν : Type) := List (κ × ν)

namespace KMap

variable {κ ν : Type} [DecidableEq κ]

/-- Go `Map.Lookup(key, &value)`: the stored value, `none` for the error the
call returns when no entry has the key. -/
def Lookup (m : KMap κ ν) (key : κ) : Option ν :=
  (m.find? (fun e => decide (e.1 = key))).map Prod.snd

/-- Go `Map.Update(key, value, 0)` when the kernel accepts it: the entry for
`key` is created or overwritten. -/
def Update (m : KMap κ ν) (key : κ) (value : ν) : KMap κ ν :=
  (key, value) :: m.filter (fun e => decide (e.1 ≠ key))

/-- Go `Map.Delete(key)`: `none` for the error the call returns when no entry
has the key. -/
def Delete (m : KMap κ ν) (key : κ) : Option (KMap κ ν) :=
  match m.Lookup key with
  | none => none
  | some _ => some (m.filter (fun e => decide (e.1 ≠ key)))

end KMap

/-! ## Label allocator -/

/-- Modelled from the spec: `labels.go` is not among the sources; one row of
the allocator's persistent mapping `id → (name, refcount)` (spec §4.2). -/
structure labelEntry where
  ID : labelID
  Name : GoString
  Count : Nat
deriving DecidableEq

/-- Modelled from the spec: the label allocator of `labels.go` (spec §4.2),
the rows of its pinned map. -/
structure labels where
  entries : List labelEntry
deriving DecidableEq

/-- Modelled from the spec: the errors of the label allocator (spec §4.2:
Full, InvalidName, Unknown). -/
inductive LabelError where
  | Full
  | InvalidName
  | Unknown
deriving DecidableEq

/-- Modelled from the spec: the number of usable ids, `2^16 - 1`, id 0 being
reserved (spec §4.2). -/
def maxLabelID : Nat := 65535

/-- Modelled from the spec: the length and charset rule of a label name,
at most 63 bytes and no NUL (spec §3).  The empty string is not a name: it is
what the dispatcher reads as "no label" for an id (`label == ""` in
`Bindings`), as id 0 is the reserved "absent" id. -/
def validName (name : GoString) : Bool :=
  decide (name ≠ []) && decide (name.length ≤ 63) && !(name.contains 0)

/-- Modelled from the spec: the smallest id from `candidate` on that is not in
`used`, trying `fuel` ids (spec §4.2, "smallest free id"). -/
def firstFree (used : List labelID) : Nat → labelID → Option labelID
  | 0, _ => none
  | fuel + 1, candidate =>
    if candidate ∈ used then firstFree used fuel (candidate + 1) else some candidate

namespace labels

/-- The allocator's row for a name, if any. -/
def find (l : labels) (name : GoString) : Option labelEntry :=
  l.entries.find? (fun e => decide (e.Name = name))

/-- The reference count the allocator holds for a name, 0 when it has none. -/
def refcount (l : labels) (name : GoString) : Nat :=
  match l.find name with
  | some e => e.Count
  | none => 0

/-- The allocator with the refcount of `name` changed by `f`. -/
def mapCount (l : labels) (name : GoString) (f : Nat → Nat) : labels :=
  ⟨l.entries.map (fun x => if x.Name = name then { x with Count := f x.Count } else x)⟩

/-- The allocator without the row of `name`. -/
def remove (l : labels) (name : GoString) : labels :=
  ⟨l.entries.filter (fun x => decide (x.Name ≠ name))⟩

/-- Modelled from the spec: `Acquire(name) → id` (spec §4.2): a known name has
its refcount incremented and its id returned; otherwise the smallest free id
`≥ 1` is inserted with refcount 1.  Fails with Full when all ids are used and
with InvalidName when the name breaks the rule. -/
def Acquire (l : labels) (name : GoString) : Except LabelError (labelID × labels) :=
  match l.find name with
  | some e => .ok (e.ID, l.mapCount name (fun c => c + 1))
  | none =>
    if validName name then
      match firstFree (l.entries.map labelEntry.ID) maxLabelID 1 with
      | some id => .ok (id, ⟨l.entries ++ [⟨id, name, 1⟩]⟩)
      | none => .error .Full
    else .error .InvalidName

/-- Modelled from the spec: `Release(name)` (spec §4.2): decrement the
refcount; when it reaches 0 remove the row.  Fails with Unknown when the name
is not present. -/
def Release (l : labels) (name : GoString) : Except LabelError labels :=
  match l.find name with
  | none => .error .Unknown
  | some e =>
    if e.Count - 1 = 0 then .ok (l.remove name)
    else .ok (l.mapCount name (fun c => c - 1))

/-- Modelled from the spec: `HasID(name, id)` (spec §4.2): true iff the
allocator currently maps `name` to exactly `id`. -/
def HasID (l : labels) (name : GoString) (id : labelID) : Bool :=
  match l.find name with
  | some e => decide (e.ID = id)
  | none => false

/-- Modelled from the spec: `List()` (spec §4.2): the snapshot `id → name`,
a Go `map[labelID]string`. -/
def List (l : labels) : KMap labelID GoString :=
  l.entries.map (fun e => (e.ID, e.Name))

/-- What `Release` leaves when its error is ignored (`_ = d.labels.Release(label)`). -/
def releaseIgnoringError (l : labels) (name : GoString) : labels :=
  match l.Release name with
  | .ok l' => l'
  | .error _ => l

end labels

/-- Reading a Go `map[labelID]string` at a key: the zero value `""` when the
key is absent. -/
def goMapIndex (m : KMap labelID GoString) (id : labelID) : GoString :=
  (m.Lookup id).getD []

/-! ## Bindings -/

/-- Modelled from the spec: a Go `net.IPMask` of a CIDR prefix, given by what
`Mask.Size()` returns: the number of leading ones and the length in bits. -/
structure IPMask where
  ones : Nat
  bits : Nat
deriving DecidableEq

/-- Source: `Mask.Size()`. -/
def IPMask.Size (m : IPMask) : Nat × Nat := (m.ones, m.bits)

/-- Modelled from the spec: a Go `net.IPNet`, the prefix of a binding (spec §3:
IPv4 or IPv6, CIDR); `IP` holds 4 or 16 bytes. -/
structure IPNet where
  IP : List Nat
  Mask : IPMask
deriving DecidableEq

/-- The 12 bytes that precede an IPv4 address in its IPv4-mapped form
`::ffff:a.b.c.d`. -/
def v4InV6Prefix : List Nat := [0, 0, 0, 0, 0, 0, 0, 0, 0, 0, 255, 255]

/-- Go `net.IP.To16`: a 4-byte address in its 16-byte IPv4-mapped form, a
16-byte address as it is, and `nil` for any other length. -/
def To16 (ip : List Nat) : List Nat :=
  if ip.length = 4 then v4InV6Prefix ++ ip
  else if ip.length = 16 then ip
  else []

/-- Modelled from the spec: the `Binding` of `binding.go` (spec §3): label,
protocol, prefix, port. -/
structure Binding where
  Label : GoString
  Protocol : Protocol
  Prefix : IPNet
  Port : Nat
deriving DecidableEq

/-- Modelled from the spec: the key of the binding table (spec §4.3):
`prefix_length : u32`, `protocol : u8`, `port : u16`, `address : 16 bytes`. -/
structure bindingKey where
  PrefixLen : Nat
  Protocol : Protocol
  Port : Nat
  IP : List Nat
deriving DecidableEq

/-- The address of a key as a number, most significant byte first. -/
def ipBits (ip : List Nat) : Nat := ip.foldl (fun acc b => acc * 256 + b) 0

/-- Modelled from the spec: the prefix of the entry key `e` covers the key `k`
in the longest-prefix-match binding table (spec §4.3, §6, glossary): same
protocol and port, a prefix no longer than that of `k`, and the same address
bits over the length of the prefix. -/
def bindingKey.covers (e k : bindingKey) : Bool :=
  decide (e.Protocol = k.Protocol ∧ e.Port = k.Port ∧ e.PrefixLen ≤ k.PrefixLen
    ∧ ipBits e.IP / 2 ^ (128 - e.PrefixLen) = ipBits k.IP / 2 ^ (128 - e.PrefixLen))

/-- The entry with the longest prefix among the given ones. -/
def longestCover : List (bindingKey × labelID) → Option (bindingKey × labelID)
  | [] => none
  | e :: rest =>
    match longestCover rest with
    | some e' => if e.1.PrefixLen < e'.1.PrefixLen then some e' else some e
    | none => some e

/-- Go `MapBindings.Lookup(key, &value)` on the longest-prefix-match binding
table: the value stored under the key when there is one (a stored key is its
own longest prefix), otherwise the value of the longest prefix that covers the
key, and `none` for the error the call returns when no entry covers it. -/
def KMap.LookupLPM (m : KMap bindingKey labelID) (key : bindingKey) : Option labelID :=
  match m.Lookup key with
  | some id => some id
  | none => (longestCover (m.filter (fun e => e.1.covers key))).map Prod.snd

/-- The errors `dispatcher.go` returns, one constructor per `return` site. -/
inductive Error where
  /-- Message `add binding: %s`, from `labels.Acquire`. -/
  | addBinding (e : LabelError)
  /-- The error of `bind.key()`. -/
  | invalidKey
  /-- Message `add binding: already bound to %q` (AlreadyBound). -/
  | alreadyBound (label : GoString)
  /-- Message `create binding: %s`, from `MapBindings.Update`. -/
  | createBinding
  /-- Message `remove binding: lookup label: %s` (NotFound). -/
  | lookupLabel
  /-- Message `remove binding: label mismatch` (LabelMismatch). -/
  | labelMismatch
  /-- Message `remove binding: %s`, from `MapBindings.Delete`. -/
  | removeDelete
  /-- Message `remove binding: %s`, from `labels.Release`. -/
  | removeRelease (e : LabelError)
  /-- Message `list labels: %s`, from `labels.List`. -/
  | listLabels
  /-- Message `no label for id %d` (Corrupt). -/
  | noLabel (id : labelID)
  /-- Message `can't iterate bindings: %s`, from `iter.Err`. -/
  | iterateBindings
  /-- Message `raw conn: %s`. -/
  | rawConn
  /-- Message `RawConn.Control/getsockopt failed: %v`. -/
  | controlGetsockopt
  /-- Message `getsockopt failed: %v`. -/
  | getsockopt
  /-- Message `Unsupported socket domain %v`. -/
  | unsupportedDomain (domain : Int)
  /-- Message `Unsupported socket type %v`. -/
  | unsupportedType (sotype : Int)
  /-- Message `Unsupported stream socket protocol %v`. -/
  | unsupportedStreamProtocol (proto : Int)
  /-- Message `Unsupported packet socket protocol %v`. -/
  | unsupportedPacketProtocol (proto : Int)
  /-- Message `Stream socket not listening`. -/
  | streamNotListening
  /-- Message `Packet socket not unconnected`. -/
  | packetNotUnconnected
  /-- Message `Can't acquire label %s: %v`. -/
  | acquireLabel (label : GoString) (e : LabelError)
  /-- Message `Can't lookup destination %+v: %v`. -/
  | lookupDestination
  /-- Message `RawConn.Control/map update failed: %v`. -/
  | controlUpdate
  /-- Message `Map update failed: %v`. -/
  | mapUpdate
deriving DecidableEq

/-- The errors of `RegisterSocket` that reject the kind of socket
(Unsupported). -/
def Error.isUnsupported : Error → Bool
  | .unsupportedDomain _ => true
  | .unsupportedType _ => true
  | .unsupportedStreamProtocol _ => true
  | .unsupportedPacketProtocol _ => true
  | .streamNotListening => true
  | .packetNotUnconnected => true
  | _ => false

/-- Modelled from the spec: `Binding.key()` of `binding.go` (spec §4.3): the
address in 16-byte form, IPv4 prefixes IPv4-mapped with the prefix length
offset by 96.  It fails when the address is not 4 or 16 bytes long or the
mask does not fit the address. -/
def Binding.key (b : Binding) : Except Error bindingKey :=
  let (ones, bits) := b.Prefix.Mask.Size
  if b.Prefix.IP.length = 4 ∧ bits = 32 ∧ ones ≤ 32 then
    .ok ⟨ones + 96, b.Protocol, b.Port, To16 b.Prefix.IP⟩
  else if b.Prefix.IP.length = 16 ∧ bits = 128 ∧ ones ≤ 128 then
    .ok ⟨ones, b.Protocol, b.Port, To16 b.Prefix.IP⟩
  else .error .invalidKey

/-- Modelled from the spec: `newBindingFromBPF` of `binding.go`, the inverse of
`Binding.key` (spec §4.3, §9): an IPv4-mapped address with a prefix length of
at least 96 is an IPv4 prefix, anything else an IPv6 prefix. -/
def newBindingFromBPF (label : GoString) (key : bindingKey) : Binding :=
  if key.IP.take 12 = v4InV6Prefix ∧ 96 ≤ key.PrefixLen then
    ⟨label, key.Protocol, ⟨key.IP.drop 12, ⟨key.PrefixLen - 96, 32⟩⟩, key.Port⟩
  else
    ⟨label, key.Protocol, ⟨key.IP, ⟨key.PrefixLen, 128⟩⟩, key.Port⟩

/-! ## Destinations -/

/-- Source: `type destinationKey struct` in `RegisterSocket`. -/
structure destinationKey where
  l3Proto : Domain
  l4Proto : Protocol
  labelID : labelID
deriving DecidableEq

/-- The line `RegisterSocket` prints on success. -/
inductive Event where
  /-- Line `Updated destination (%s, %s, %s) -> %s to %s`. -/
  | updated (key : destinationKey) (label : GoString) (old new : SocketCookie)
  /-- Line `Created destination (%s, %s, %s) -> %s`. -/
  | created (key : destinationKey) (label : GoString) (new : SocketCookie)
deriving DecidableEq

/-- The `syscall.Conn` handed to `RegisterSocket`, as one call sees it: the
values of the local variables after the first `raw.Control`, the socket
behind the file descriptor, and which calls fail. -/
structure Conn where
  /-- The call `conn.SyscallConn()` returns an error. -/
  syscallConnErr : Bool
  /-- The first `raw.Control` returns an error. -/
  controlErr : Bool
  /-- The variable `opErr` is non-nil after the first `raw.Control`. -/
  opErr : Bool
  /-- The variable `domain` (`SO_DOMAIN`). -/
  domain : Int
  /-- The variable `sotype` (`SO_TYPE`). -/
  sotype : Int
  /-- The variable `proto` (`SO_PROTOCOL`). -/
  proto : Int
  /-- The variable `listening` (`SO_ACCEPTCONN` is 1). -/
  listening : Bool
  /-- The variable `unconnected` (`Getpeername` fails with `ENOTCONN`). -/
  unconnected : Bool
  /-- The socket behind the file descriptor `s`, named by the cookie the kernel
  gives it: what a lookup reads back from an entry that holds the socket. -/
  socket : SocketCookie
  /-- The variable `cookie` (`SO_COOKIE`), used in the printed line. -/
  cookie : SocketCookie
  /-- The call `MapDestinations.Lookup` fails with an error other than
  `ErrKeyNotExist`. -/
  lookupErr : Bool
  /-- The second `raw.Control` returns an error. -/
  controlUpdateErr : Bool
  /-- The call `MapDestinations.Update` returns an error (`opErr != nil`). -/
  updateErr : Bool
deriving DecidableEq

/-! ## The dispatcher -/

/-- Source: `type Dispatcher struct`, the parts the binding and destination
operations touch: the label allocator, the two kernel maps (`bpf.MapBindings`,
`bpf.MapDestinations`), and what has been printed. -/
structure Dispatcher where
  labels : labels
  MapBindings : KMap bindingKey labelID
  MapDestinations : KMap destinationKey SocketCookie
  stdout : List Event
deriving DecidableEq

/-- The dispatcher `CreateDispatcher` returns: no label, no binding, no
destination. -/
def Dispatcher.fresh : Dispatcher := ⟨⟨[]⟩, [], [], []⟩

/-- Source: the deferred `onError` of `AddBinding`: when the call returns an
error, `d.labels.Release(label)` runs and its own error is dropped. -/
def AddBinding.onError (label : GoString) (r : Except Error Unit × Dispatcher) :
    Except Error Unit × Dispatcher :=
  match r.1 with
  | .error _ => (r.1, { r.2 with labels := r.2.labels.releaseIgnoringError label })
  | .ok _ => r

/-- Source: the end of `AddBinding`, `d.bpf.MapBindings.Update(key, id, 0)`;
`updateErr` says that the kernel refuses the update. -/
def AddBinding.update (d : Dispatcher) (key : bindingKey) (id : labelID) (updateErr : Bool) :
    Except Error Unit × Dispatcher :=
  if updateErr then (.error .createBinding, d)
  else (.ok (), { d with MapBindings := d.MapBindings.Update key id })

/-- Source: `Dispatcher.AddBinding`. -/
def AddBinding (d : Dispatcher) (bind : Binding) (updateErr : Bool) :
    Except Error Unit × Dispatcher :=
  let label := bind.Label
  match d.labels.Acquire label with
  | .error e => (.error (.addBinding e), d)
  | .ok (id, acquired) =>
    let d1 := { d with labels := acquired }
    AddBinding.onError label <|
      match bind.key with
      | .error e => (.error e, d1)
      | .ok key =>
        match d1.MapBindings.LookupLPM key with
        | some existingID =>
          if existingID = id then (.error (.alreadyBound label), d1)
          else AddBinding.update d1 key id updateErr
        | none => AddBinding.update d1 key id updateErr

/-- Source: `Dispatcher.RemoveBinding`. -/
def RemoveBinding (d : Dispatcher) (bind : Binding) : Except Error Unit × Dispatcher :=
  match bind.key with
  | .error e => (.error e, d)
  | .ok key =>
    match d.MapBindings.LookupLPM key with
    | none => (.error .lookupLabel, d)
    | some existingID =>
      if !d.labels.HasID bind.Label existingID then (.error .labelMismatch, d)
      else
        match d.MapBindings.Delete key with
        | none => (.error .removeDelete, d)
        | some m =>
          let d1 := { d with MapBindings := m }
          match d1.labels.Release bind.Label with
          | .error e => (.error (.removeRelease e), d1)
          | .ok released => (.ok (), { d1 with labels := released })

/-- Go `bytes.Compare`: -1, 0 or 1 by the lexicographic order of the bytes. -/
def bytesCompare : List Nat → List Nat → Int
  | [], [] => 0
  | [], _ :: _ => -1
  | _ :: _, [] => 1
  | a :: as, b :: bs =>
    if a < b then -1 else if b < a then 1 else bytesCompare as bs

/-- Go `<` on strings: the lexicographic order of the bytes. -/
def stringLess (a b : GoString) : Bool := decide (bytesCompare a b < 0)

/-- Source: the `less` function `Bindings` passes to `sort.Slice`. -/
def Bindings.less (a b : Binding) : Bool :=
  if a.Label ≠ b.Label then stringLess a.Label b.Label
  else if a.Protocol ≠ b.Protocol then decide (a.Protocol < b.Protocol)
  else if a.Port ≠ b.Port then decide (a.Port < b.Port)
  else
    let c := bytesCompare (To16 a.Prefix.IP) (To16 b.Prefix.IP)
    if c ≠ 0 then decide (c < 0)
    else
      let aBits := a.Prefix.Mask.Size.1
      let bBits := b.Prefix.Mask.Size.1
      decide (aBits < bBits)

/-- Go `sort.Slice(xs, less)`, as an insertion sort: an element is put before
the first one that is not less than it. -/
def sortSlice {α : Type} (less : α → α → Bool) (xs : List α) : List α :=
  xs.insertionSort (fun a b => less b a = false)

/-- Source: the loop of `Bindings` over `MapBindings.Iterate()`: each entry is
joined with its label, and an id without a label ends the call. -/
def Bindings.collect (labels : KMap labelID GoString) :
    List (bindingKey × labelID) → List Binding → Except Error (List Binding)
  | [], bindings => .ok bindings
  | (key, id) :: rest, bindings =>
    let label := goMapIndex labels id
    if label = [] then .error (.noLabel id)
    else Bindings.collect labels rest (bindings ++ [newBindingFromBPF label key])

/-- The entries `iter.Next` delivers: all of them, or the first `n` when the
iteration fails after `n` entries. -/
def Bindings.visited (m : KMap bindingKey labelID) : Option Nat → List (bindingKey × labelID)
  | none => m
  | some n => m.take n

/-- Source: `Dispatcher.Bindings`.  `listErr` says that `labels.List()` returns
an error; `iterErr` is the number of entries the iteration delivers before it
fails, if it fails (`iter.Err() != nil` after the loop). -/
def Bindings (d : Dispatcher) (listErr : Bool) (iterErr : Option Nat) :
    Except Error (List Binding) :=
  if listErr then .error .listLabels
  else
    let labels := d.labels.List
    match Bindings.collect labels (Bindings.visited d.MapBindings iterErr) [] with
    | .error e => .error e
    | .ok bindings =>
      if iterErr.isSome then .error .iterateBindings
      else .ok (sortSlice Bindings.less bindings)

/-- Source: the checks of `RegisterSocket` on what the socket options say. -/
def RegisterSocket.validate (domain sotype proto : Int) (listening unconnected : Bool) :
    Except Error Unit :=
  if domain ≠ unix.AF_INET ∧ domain ≠ unix.AF_INET6 then .error (.unsupportedDomain domain)
  else if sotype ≠ unix.SOCK_STREAM ∧ sotype ≠ unix.SOCK_DGRAM then
    .error (.unsupportedType sotype)
  else if sotype = unix.SOCK_STREAM ∧ proto ≠ unix.IPPROTO_TCP then
    .error (.unsupportedStreamProtocol proto)
  else if sotype = unix.SOCK_DGRAM ∧ proto ≠ unix.IPPROTO_UDP then
    .error (.unsupportedPacketProtocol proto)
  else if sotype = unix.SOCK_STREAM ∧ !listening then .error .streamNotListening
  else if sotype = unix.SOCK_DGRAM ∧ !unconnected then .error .packetNotUnconnected
  else .ok ()

/-- Source: `RegisterSocket` from the destination lookup to its `return`s.
The result is unnamed in the source, so the deferred closure reads the local
variable `err`: the middle component says whether `err` is non-nil at the
`return` taken.  After a failed update only `opErr` is set and `err` is nil. -/
def RegisterSocket.store (d : Dispatcher) (label : GoString) (key : destinationKey)
    (conn : Conn) : Except Error Unit × Bool × Dispatcher :=
  let existingCookie : SocketCookie := (d.MapDestinations.Lookup key).getD 0
  if conn.lookupErr then (.error .lookupDestination, true, d)
  else if conn.controlUpdateErr then (.error .controlUpdate, true, d)
  else if conn.updateErr then (.error .mapUpdate, false, d)
  else
    let event :=
      if existingCookie ≠ 0 then Event.updated key label existingCookie conn.cookie
      else Event.created key label conn.cookie
    (.ok (), false,
      { d with MapDestinations := d.MapDestinations.Update key conn.socket,
               stdout := d.stdout ++ [event] })

/-- Source: `Dispatcher.RegisterSocket`. -/
def RegisterSocket (d : Dispatcher) (label : GoString) (conn : Conn) :
    Except Error Unit × Dispatcher :=
  if conn.syscallConnErr then (.error .rawConn, d)
  else if conn.controlErr then (.error .controlGetsockopt, d)
  else if conn.opErr then (.error .getsockopt, d)
  else
    match RegisterSocket.validate conn.domain conn.sotype conn.proto
        conn.listening conn.unconnected with
    | .error e => (.error e, d)
    | .ok _ =>
      match d.labels.Acquire label with
      | .error e => (.error (.acquireLabel label e), d)
      | .ok (id, acquired) =>
        let d1 := { d with labels := acquired }
        let key : destinationKey := ⟨toUint8 conn.domain, toUint8 conn.proto, id⟩
        match RegisterSocket.store d1 label key conn with
        | (result, errNotNil, d2) =>
          if errNotNil then (result, { d2 with labels := d2.labels.releaseIgnoringError label })
          else (result, d2)

/-! ## Sequences of calls -/

/-- One call on the dispatcher, with what the kernel answers to it. -/
inductive Op where
  | AddBinding (bind : Binding) (updateErr : Bool)
  | RemoveBinding (bind : Binding)
  | RegisterSocket (label : GoString) (conn : Conn)
deriving DecidableEq

/-- The state a call leaves, whether it succeeds or fails. -/
def step (d : Dispatcher) : Op → Dispatcher
  | .AddBinding bind updateErr => (AddBinding d bind updateErr).2
  | .RemoveBinding bind => (RemoveBinding d bind).2
  | .RegisterSocket label conn => (RegisterSocket d label conn).2

/-- The state after a sequence of calls on a freshly created dispatcher. -/
def run (ops : List Op) : Dispatcher := ops.foldl step Dispatcher.fresh

/-- The binding `Bindings` builds from one entry of the binding table: the key
joined with the label that `labels.List()` gives for the id. -/
def Dispatcher.bindingOf (d : Dispatcher) (e : bindingKey × labelID) : Binding :=
  newBindingFromBPF (goMapIndex d.labels.List e.2) e.1

/-- The tuple by which `Bindings.less` compares two bindings, in the
lexicographic order: label, protocol, port, the address as 16 bytes, prefix
length. -/
def Bindings.sortKey (b : Binding) : GoString ×ₗ (Nat ×ₗ (Nat ×ₗ (List Nat ×ₗ Nat))) :=
  toLex (b.Label, toLex (b.Protocol, toLex (b.Port,
    toLex (To16 b.Prefix.IP, b.Prefix.Mask.Size.1))))

/-! ## Well-formed states -/

/-- The allocator rows are well formed: names and ids are each unique and
every row is referenced at least once. -/
structure labels.WF (l : labels) : Prop where
  names : (l.entries.map labelEntry.Name).Nodup
  ids : (l.entries.map labelEntry.ID).Nodup
  counts : ∀ e ∈ l.entries, 1 ≤ e.Count

/-- The references the allocator counts under an id: the refcounts of the
rows that carry it, summed. -/
def idCount (id : labelID) (es : List labelEntry) : Nat :=
  ((es.filter (fun e => decide (e.ID = id))).map labelEntry.Count).sum

/-- The number of entries of the binding table and of the destination table
that carry the id. -/
def Dispatcher.uses (d : Dispatcher) (id : labelID) : Nat :=
  d.MapBindings.countP (fun e => decide (e.2 = id))
    + d.MapDestinations.countP (fun e => decide (e.1.labelID = id))

/-- A key of the binding table as `Binding.key` builds it: a 16-byte address
and a prefix length of at most 128. -/
def bindingKey.WF (k : bindingKey) : Prop := k.IP.length = 16 ∧ k.PrefixLen ≤ 128

/-- The invariant of the dispatcher state: the allocator is well formed, no id
is carried by more table entries than the allocator counts references for it,
the keys of the binding table are well formed, and no row of the allocator
has the empty name. -/
structure Dispatcher.Inv (d : Dispatcher) : Prop where
  wf : d.labels.WF
  refs : ∀ id, d.uses id ≤ idCount id d.labels.entries
  keys : ∀ e ∈ d.MapBindings, e.1.WF
  names : ∀ r ∈ d.labels.entries, r.Name ≠ []

/-! ## Creating the dispatcher -/

/-- A path of the file system, by its components. -/
abbrev Path := List String

/-- What the caller of `CreateDispatcher` holds open: the values the source
closes with `closeOnError` or `Close`. -/
inductive Handle where
  /-- The value `netns` of `newNetns`. -/
  | netns
  /-- The value `dir` of `os.Open(pinPath)`; the lock is held through it. -/
  | dir
  /-- The value `labels` of `createLabels`. -/
  | labels
  /-- The value `coll` of `ebpf.NewCollection`. -/
  | coll
  /-- The value `bpf` that `coll.Assign` fills. -/
  | bpf
  /-- The value `attach` of `netns.AttachProgram`. -/
  | attach
deriving DecidableEq

/-- The world `CreateDispatcher` acts on: the paths that exist on the file
system and the handles the caller holds open. -/
structure World where
  fs : List Path
  handles : List Handle
deriving DecidableEq

/-- The handle is opened. -/
def World.opened (w : World) (h : Handle) : World :=
  { w with handles := w.handles ++ [h] }

/-- Go `c.Close()`: the handle is no longer held. -/
def World.Close (w : World) (h : Handle) : World :=
  { w with handles := w.handles.filter (fun x => decide (x ≠ h)) }

/-- A pin or a directory is created at the path. -/
def World.create (w : World) (path : Path) : World :=
  { w with fs := w.fs ++ [path] }

/-- Go `os.RemoveAll(path)`: the path and everything below it are gone. -/
def World.RemoveAll (w : World) (path : Path) : World :=
  { w with fs := w.fs.filter (fun q => !path.isPrefixOf q) }

/-- Which steps of one `CreateDispatcher` call fail.  The helpers of the
repository that the call uses (`newDispatcherSpecs`, `newNetns`,
`createLabels`, `lock.TryLockExclusive`, `AttachProgram`) are not among the
sources: what they return is given here. -/
structure CreateFaults where
  /-- The call `newDispatcherSpecs()` returns an error. -/
  specsErr : Bool
  /-- The call `newNetns(netnsPath, bpfFsPath)` returns an error. -/
  netnsErr : Bool
  /-- The call `os.Mkdir` returns an error other than "exists". -/
  mkdirErr : Bool
  /-- The call `os.Open(pinPath)` returns an error. -/
  openErr : Bool
  /-- The call `lock.TryLockExclusive(dir)` returns an error. -/
  lockErr : Bool
  /-- The call `createLabels` returns an error. -/
  labelsErr : Bool
  /-- The call `ebpf.NewCollection(spec)` returns an error. -/
  collectionErr : Bool
  /-- The position, in the iteration of `coll.Maps`, of the map whose `Pin`
  returns an error, if one does. -/
  pinErr : Option Nat
  /-- The call `coll.Assign(&bpf)` returns an error. -/
  assignErr : Bool
  /-- The call `netns.AttachProgram` returns an error. -/
  attachErr : Bool
  /-- The call `attach.Pin(linkPath)` returns an error. -/
  pinLinkErr : Bool
deriving DecidableEq

/-- The errors `CreateDispatcher` returns, one constructor per `return` site. -/
inductive CreateError where
  /-- The error of `newDispatcherSpecs`. -/
  | specs
  /-- The error of `newNetns`. -/
  | netns
  /-- Message `create state directory %s: %w` wrapping `ErrLoaded`
  (AlreadyLoaded). -/
  | loaded
  /-- Message `create state directory: %s`. -/
  | createStateDirectory
  /-- Message `can't open state directory: %s`. -/
  | openStateDirectory
  /-- The error of `lock.TryLockExclusive`. -/
  | lock
  /-- The error of `createLabels`. -/
  | labels
  /-- Message `can't load BPF: %s`. -/
  | loadBPF
  /-- Message `can't pin map %s: %s`. -/
  | pinMap (name : String)
  /-- Message `can't assign objects: %s`. -/
  | assignObjects
  /-- The error of `netns.AttachProgram`. -/
  | attachProgram
  /-- Message `can't pin link: %s`. -/
  | pinLink
deriving DecidableEq

/-- Source: the deferred `closeOnError(c)` of `CreateDispatcher`: when the call
returns an error, `c.Close()` runs. -/
def CreateDispatcher.closeOnError (h : Handle) (r : Except CreateError Dispatcher × World) :
    Except CreateError Dispatcher × World :=
  match r.1 with
  | .error _ => (r.1, r.2.Close h)
  | .ok _ => r

/-- Source: the deferred `coll.Close()` of `CreateDispatcher`, which runs
however the call returns. -/
def CreateDispatcher.deferClose (h : Handle) (r : Except CreateError Dispatcher × World) :
    Except CreateError Dispatcher × World :=
  (r.1, r.2.Close h)

/-- Source: the deferred `onError(fn)` of `CreateDispatcher`: when the call
returns an error, `fn` runs. -/
def CreateDispatcher.onError (fn : World → World) (r : Except CreateError Dispatcher × World) :
    Except CreateError Dispatcher × World :=
  match r.1 with
  | .error _ => (r.1, fn r.2)
  | .ok _ => r

/-- Source: the loop of `CreateDispatcher` over `coll.Maps`: each map is pinned
at `pinPath/name`; the first `Pin` that fails ends the call, with the earlier
pins in place.  The result names the map whose pin failed, if any. -/
def CreateDispatcher.pinMaps (pinPath : Path) (pinErr : Option Nat) :
    List String → Nat → World → Option String × World
  | [], _, w => (none, w)
  | name :: rest, i, w =>
    if pinErr = some i then (some name, w)
    else CreateDispatcher.pinMaps pinPath pinErr rest (i + 1) (w.create (pinPath ++ [name]))

/-- Source: `CreateDispatcher` from `os.Open(pinPath)` to its last `return`,
the part that runs once the state directory is created.  The deferred calls
wrap what follows them, so they run in the reverse order of their `defer`. -/
def CreateDispatcher.load (pinPath : Path) (maps : List String) (f : CreateFaults)
    (w : World) : Except CreateError Dispatcher × World :=
  if f.openErr then (.error .openStateDirectory, w)
  else
    CreateDispatcher.closeOnError .dir <|
      let w := w.opened .dir
      if f.lockErr then (.error .lock, w)
      else if f.labelsErr then (.error .labels, w)
      else
        CreateDispatcher.closeOnError .labels <|
          let w := (w.create (pinPath ++ ["labels"])).opened .labels
          if f.collectionErr then (.error .loadBPF, w)
          else
            CreateDispatcher.deferClose .coll <|
              let w := w.opened .coll
              match CreateDispatcher.pinMaps pinPath f.pinErr maps 0 w with
              | (some name, w) => (.error (.pinMap name), w)
              | (none, w) =>
                if f.assignErr then (.error .assignObjects, w)
                else
                  CreateDispatcher.closeOnError .bpf <|
                    let w := w.opened .bpf
                    if f.attachErr then (.error .attachProgram, w)
                    else
                      CreateDispatcher.closeOnError .attach <|
                        let w := w.opened .attach
                        if f.pinLinkErr then (.error .pinLink, w)
                        else (.ok Dispatcher.fresh, w.create (pinPath ++ ["link"]))

/-- Source: `CreateDispatcher`.  `pinPath` is `netns.DispatcherStatePath()`,
`maps` the names of `coll.Maps` in the order the loop visits them; the
dispatcher returned has no label, binding or destination yet. -/
def CreateDispatcher (pinPath : Path) (maps : List String) (f : CreateFaults) (w : World) :
    Except CreateError Dispatcher × World :=
  if f.specsErr then (.error .specs, w)
  else if f.netnsErr then (.error .netns, w)
  else
    CreateDispatcher.closeOnError .netns <|
      let w := w.opened .netns
      if pinPath ∈ w.fs then (.error .loaded, w)
      else if f.mkdirErr then (.error .createStateDirectory, w)
      else
        CreateDispatcher.onError (fun w => w.RemoveAll pinPath) <|
          CreateDispatcher.load pinPath maps f (w.create pinPath)

/-! # Theorems -/

/-! ## The label allocator -/

theorem find_some_mem {l : labels} {name : GoString} {e : labelEntry}
    (h : l.find name = some e) : e ∈ l.entries ∧ e.Name = name := by
  unfold labels.find at h
  exact ⟨List.mem_of_find?_eq_some h, by simpa using List.find?_some h⟩

theorem find_none_iff {l : labels} {name : GoString} :
    l.find name = none ↔ ∀ e ∈ l.entries, e.Name ≠ name := by
  unfold labels.find
  simp

theorem find_mapCount (l : labels) (name : GoString) (f : Nat → Nat) (n : GoString) :
    (l.mapCount name f).find n
    = (l.find n).map (fun x => if x.Name = name then { x with Count := f x.Count } else x) := by
  unfold labels.find labels.mapCount
  rw [List.find?_map]
  congr 2
  funext x
  by_cases hx : x.Name = name <;> simp [hx]

theorem mapCount_mapCount (l : labels) (name : GoString) (f g : Nat → Nat) :
    (l.mapCount name f).mapCount name g = l.mapCount name (g ∘ f) := by
  unfold labels.mapCount
  simp only [List.map_map, labels.mk.injEq]
  apply List.map_congr_left
  intro x _
  by_cases hx : x.Name = name <;> simp [hx]

theorem mapCount_id (l : labels) (name : GoString) (f : Nat → Nat) (hf : ∀ c, f c = c) :
    l.mapCount name f = l := by
  cases l with
  | mk entries =>
    unfold labels.mapCount
    simp only [labels.mk.injEq]
    conv_rhs => rw [← List.map_id entries]
    apply List.map_congr_left
    intro x _
    by_cases hx : x.Name = name
    · cases x; simp_all
    · simp [hx]

theorem find_of_HasID {l : labels} {name : GoString} {id : labelID}
    (h : l.HasID name id = true) : ∃ e, l.find name = some e ∧ e.ID = id := by
  unfold labels.HasID at h
  cases hf : l.find name with
  | none => rw [hf] at h; cases h
  | some e => rw [hf] at h; exact ⟨e, rfl, by simpa using h⟩

theorem acquire_of_find {l : labels} {name : GoString} {e : labelEntry}
    (h : l.find name = some e) :
    l.Acquire name = .ok (e.ID, l.mapCount name (fun c => c + 1)) := by
  unfold labels.Acquire
  rw [h]

/-- Releasing a name right after acquiring it gives the allocator back. -/
theorem release_acquire {l l' : labels} {name : GoString} {id : labelID}
    (hc : ∀ e ∈ l.entries, 1 ≤ e.Count)
    (h : l.Acquire name = .ok (id, l')) : l'.Release name = .ok l := by
  unfold labels.Acquire at h
  cases hf : l.find name with
  | some e =>
    rw [hf] at h
    simp only [Except.ok.injEq, Prod.mk.injEq] at h
    obtain ⟨-, rfl⟩ := h
    have hmem := find_some_mem hf
    have hcount := hc e hmem.1
    unfold labels.Release
    rw [find_mapCount, hf]
    simp only [Option.map_some', hmem.2, if_true]
    rw [if_neg (by omega), mapCount_mapCount, mapCount_id]
    intro c
    simp
  | none =>
    rw [hf] at h
    simp only at h
    split at h
    · split at h
      · simp only [Except.ok.injEq, Prod.mk.injEq] at h
        obtain ⟨-, rfl⟩ := h
        unfold labels.Release labels.find
        simp only [List.find?_append]
        have hnone : l.entries.find? (fun e => decide (e.Name = name)) = none := hf
        rw [hnone]
        simp only [List.find?_cons, decide_True, Option.or, Nat.sub_self, if_true]
        congr 1
        cases l with
        | mk entries =>
          unfold labels.remove
          simp only [labels.mk.injEq, List.filter_append]
          have hall := find_none_iff.mp hf
          simp only at hall
          rw [List.filter_eq_self.mpr (by intro a ha; simpa using hall a ha)]
          simp
      · cases h
    · cases h

theorem releaseIgnoringError_acquire {l l' : labels} {name : GoString} {id : labelID}
    (hc : ∀ e ∈ l.entries, 1 ≤ e.Count)
    (h : l.Acquire name = .ok (id, l')) : l'.releaseIgnoringError name = l := by
  unfold labels.releaseIgnoringError
  rw [release_acquire hc h]

/-! ## Kernel maps -/

theorem KMap.Lookup_Update_self {κ ν : Type} [DecidableEq κ] (m : KMap κ ν) (k : κ) (v : ν) :
    (m.Update k v).Lookup k = some v := by
  simp [KMap.Lookup, KMap.Update]

theorem KMap.Lookup_filter_ne {κ ν : Type} [DecidableEq κ] (m : KMap κ ν) (k k' : κ)
    (h : k' ≠ k) :
    KMap.Lookup (m.filter (fun e => decide (e.1 ≠ k))) k' = m.Lookup k' := by
  unfold KMap.Lookup
  rw [List.find?_filter]
  congr 2
  funext a
  by_cases ha : a.1 = k'
  · have : a.1 ≠ k := by rw [ha]; exact h
    simp [ha, h]
  · simp [ha]

theorem KMap.Lookup_filter_self {κ ν : Type} [DecidableEq κ] (m : KMap κ ν) (k : κ) :
    KMap.Lookup (m.filter (fun e => decide (e.1 ≠ k))) k = none := by
  simp [KMap.Lookup]

theorem KMap.Lookup_Update_ne {κ ν : Type} [DecidableEq κ] (m : KMap κ ν) (k k' : κ) (v : ν)
    (h : k' ≠ k) : (m.Update k v).Lookup k' = m.Lookup k' := by
  have := KMap.Lookup_filter_ne m k k' h
  unfold KMap.Lookup at this ⊢
  unfold KMap.Update
  rw [List.find?_cons]
  simp only [decide_eq_true_eq, h.symm, decide_False]
  exact this

theorem KMap.mem_of_Lookup {κ ν : Type} [DecidableEq κ] {m : KMap κ ν} {k : κ} {v : ν}
    (h : m.Lookup k = some v) : (k, v) ∈ m := by
  unfold KMap.Lookup at h
  cases hf : m.find? (fun e => decide (e.1 = k)) with
  | none => rw [hf] at h; cases h
  | some e =>
    rw [hf] at h
    have h1 := List.mem_of_find?_eq_some hf
    have h2 := List.find?_some hf
    simp at h h2
    rw [← h, ← h2]
    exact h1

theorem covers_self (k : bindingKey) : k.covers k = true := by
  simp [bindingKey.covers]

theorem KMap.LookupLPM_of_Lookup {m : KMap bindingKey labelID} {key : bindingKey}
    {id : labelID} (h : KMap.Lookup m key = some id) : KMap.LookupLPM m key = some id := by
  unfold KMap.LookupLPM
  rw [h]

theorem KMap.Lookup_eq_none_of_LookupLPM {m : KMap bindingKey labelID} {key : bindingKey}
    (h : KMap.LookupLPM m key = none) : KMap.Lookup m key = none := by
  cases hl : KMap.Lookup m key with
  | none => rfl
  | some id => rw [KMap.LookupLPM_of_Lookup hl] at h; cases h

theorem KMap.LookupLPM_eq_none_of_no_cover {m : KMap bindingKey labelID} {key : bindingKey}
    (h : ∀ e ∈ m, e.1.covers key = false) : KMap.LookupLPM m key = none := by
  have hexact : KMap.Lookup m key = none := by
    cases hl : KMap.Lookup m key with
    | none => rfl
    | some id =>
      have := h (key, id) (KMap.mem_of_Lookup hl)
      rw [covers_self] at this
      cases this
  have hfilter : m.filter (fun e => e.1.covers key) = [] := by
    rw [List.filter_eq_nil_iff]
    intro e he
    simp [h e he]
  unfold KMap.LookupLPM
  rw [hexact, hfilter]
  rfl

theorem longestCover_mem : ∀ {l : List (bindingKey × labelID)} {e : bindingKey × labelID},
    longestCover l = some e → e ∈ l := by
  intro l
  induction l with
  | nil => intro e h; cases h
  | cons a rest ih =>
    intro e h
    unfold longestCover at h
    cases hr : longestCover rest with
    | none =>
      rw [hr] at h
      simp only [Option.some.injEq] at h
      exact h ▸ List.mem_cons_self _ _
    | some e' =>
      rw [hr] at h
      simp only at h
      split at h
      · simp only [Option.some.injEq] at h
        exact List.mem_cons_of_mem _ (ih (h ▸ hr))
      · simp only [Option.some.injEq] at h
        exact h ▸ List.mem_cons_self _ _

/-- What a lookup answers with when the key itself is not stored: the id of an
entry whose prefix covers the key. -/
theorem KMap.LookupLPM_cover {m : KMap bindingKey labelID} {key : bindingKey} {id : labelID}
    (h : KMap.LookupLPM m key = some id) (hexact : KMap.Lookup m key = none) :
    ∃ e ∈ m, e.1.covers key = true ∧ e.1 ≠ key ∧ e.2 = id := by
  unfold KMap.LookupLPM at h
  rw [hexact] at h
  simp only [Option.map_eq_some'] at h
  obtain ⟨e, he, hid⟩ := h
  have hmem := longestCover_mem he
  rw [List.mem_filter] at hmem
  refine ⟨e, hmem.1, hmem.2, ?_, hid⟩
  intro heq
  have : (m.find? (fun x => decide (x.1 = key))) = none := by
    unfold KMap.Lookup at hexact
    simpa using hexact
  rw [List.find?_eq_none] at this
  exact this e hmem.1 (by simp [heq])

theorem longestCover_eq_none : ∀ {l : List (bindingKey × labelID)},
    longestCover l = none → l = [] := by
  intro l
  cases l with
  | nil => intro _; rfl
  | cons a rest =>
    intro h
    unfold longestCover at h
    cases hr : longestCover rest with
    | none => rw [hr] at h; cases h
    | some e' =>
      rw [hr] at h
      simp only at h
      split at h <;> cases h

/-- The lookup finds nothing exactly when no stored entry covers the key. -/
theorem KMap.LookupLPM_eq_none_iff {m : KMap bindingKey labelID} {key : bindingKey} :
    KMap.LookupLPM m key = none ↔ ∀ e ∈ m, e.1.covers key = false := by
  constructor
  · intro h e he
    have hexact := KMap.Lookup_eq_none_of_LookupLPM h
    unfold KMap.LookupLPM at h
    rw [hexact] at h
    simp only [Option.map_eq_none'] at h
    have hnil := longestCover_eq_none h
    rw [List.filter_eq_nil_iff] at hnil
    simpa using hnil e he
  · exact KMap.LookupLPM_eq_none_of_no_cover

/-- C1: for every binding and every well-formed dispatcher state in which the
binding table already maps the binding's key to the id that the label
allocator holds for the binding's label, `AddBinding` returns the
"already bound" error and leaves the whole state, binding table and label
allocator (ids and refcounts) included, exactly as it was: the id acquired at
the start of the call is released again. -/
theorem AddBinding_already_bound (d : Dispatcher) (bind : Binding) (key : bindingKey)
    (id : labelID) (updateErr : Bool) (hwf : d.labels.WF) (hkey : bind.key = .ok key)
    (hbound : d.MapBindings.Lookup key = some id)
    (hid : d.labels.HasID bind.Label id = true) :
    AddBinding d bind updateErr = (.error (.alreadyBound bind.Label), d) := by
  obtain ⟨e, hfind, rfl⟩ := find_of_HasID hid
  have hacq := acquire_of_find hfind
  have hrel := releaseIgnoringError_acquire hwf.counts hacq
  unfold AddBinding
  simp only [hacq, hkey, KMap.LookupLPM_of_Lookup hbound, if_true, AddBinding.onError, hrel]

theorem AddBinding_already_bound_witness :
    AddBinding ⟨⟨[⟨1, ascii "a", 1⟩]⟩, [(⟨104, TCP, 0, v4InV6Prefix ++ [10, 0, 0, 0]⟩, 1)], [], []⟩
        ⟨ascii "a", TCP, ⟨[10, 0, 0, 0], ⟨8, 32⟩⟩, 0⟩ false
      = (.error (.alreadyBound (ascii "a")),
          ⟨⟨[⟨1, ascii "a", 1⟩]⟩, [(⟨104, TCP, 0, v4InV6Prefix ++ [10, 0, 0, 0]⟩, 1)], [], []⟩) :=
  AddBinding_already_bound _ _ ⟨104, TCP, 0, v4InV6Prefix ++ [10, 0, 0, 0]⟩ 1 false
    ⟨by decide, by decide, by decide⟩ (by decide) (by decide) (by decide)

/-! ## The allocator on a well-formed state -/

theorem idCount_append (id : labelID) (as bs : List labelEntry) :
    idCount id (as ++ bs) = idCount id as + idCount id bs := by
  simp [idCount]

theorem idCount_cons (id : labelID) (e : labelEntry) (es : List labelEntry) :
    idCount id (e :: es) = (if e.ID = id then e.Count else 0) + idCount id es := by
  by_cases h : e.ID = id <;> simp [idCount, List.filter_cons, h]

theorem idCount_nil (id : labelID) : idCount id [] = 0 := rfl

theorem find_decompose {l : labels} {name : GoString} {e : labelEntry}
    (hn : (l.entries.map labelEntry.Name).Nodup) (hf : l.find name = some e) :
    ∃ as bs, l.entries = as ++ e :: bs ∧ e.Name = name ∧ (∀ x ∈ as, x.Name ≠ name)
      ∧ (∀ x ∈ bs, x.Name ≠ name) := by
  unfold labels.find at hf
  obtain ⟨hp, as, bs, heq, has⟩ := List.find?_eq_some.mp hf
  have hname : e.Name = name := by simpa using hp
  refine ⟨as, bs, heq, hname, ?_, ?_⟩
  · intro x hx
    simpa using has x hx
  · intro x hx hxn
    rw [heq] at hn
    simp only [List.map_append, List.map_cons] at hn
    have h2 := (List.nodup_append.mp hn).2.1
    have h3 := (List.nodup_cons.mp h2).1
    apply h3
    rw [hname, ← hxn]
    exact List.mem_map_of_mem _ hx

theorem mapCount_decomposed (as bs : List labelEntry) (e : labelEntry) (name : GoString)
    (f : Nat → Nat) (he : e.Name = name) (has : ∀ x ∈ as, x.Name ≠ name)
    (hbs : ∀ x ∈ bs, x.Name ≠ name) :
    labels.mapCount ⟨as ++ e :: bs⟩ name f = ⟨as ++ { e with Count := f e.Count } :: bs⟩ := by
  unfold labels.mapCount
  simp only [List.map_append, List.map_cons, he, if_true, labels.mk.injEq]
  congr 1
  · conv_rhs => rw [← List.map_id as]
    apply List.map_congr_left
    intro x hx
    simp [has x hx]
  · congr 1
    conv_rhs => rw [← List.map_id bs]
    apply List.map_congr_left
    intro x hx
    simp [hbs x hx]

theorem remove_decomposed (as bs : List labelEntry) (e : labelEntry) (name : GoString)
    (he : e.Name = name) (has : ∀ x ∈ as, x.Name ≠ name)
    (hbs : ∀ x ∈ bs, x.Name ≠ name) :
    labels.remove ⟨as ++ e :: bs⟩ name = ⟨as ++ bs⟩ := by
  unfold labels.remove
  simp only [List.filter_append, List.filter_cons, he, ne_eq, not_true_eq_false, decide_False,
    labels.mk.injEq]
  rw [List.filter_eq_self.mpr (by intro a ha; simpa using has a ha),
    List.filter_eq_self.mpr (by intro a ha; simpa using hbs a ha)]
  simp

theorem firstFree_not_mem (used : List labelID) :
    ∀ (fuel : Nat) (c id : labelID), firstFree used fuel c = some id → id ∉ used := by
  intro fuel
  induction fuel with
  | zero => intro c id h; simp [firstFree] at h
  | succ n ih =>
    intro c id h
    unfold firstFree at h
    split at h
    · exact ih _ _ h
    · simp only [Option.some.injEq] at h
      rw [← h]
      assumption

theorem WF_replace {as bs : List labelEntry} {e e' : labelEntry}
    (h : labels.WF ⟨as ++ e :: bs⟩) (hn : e'.Name = e.Name) (hi : e'.ID = e.ID)
    (hc : 1 ≤ e'.Count) : labels.WF ⟨as ++ e' :: bs⟩ := by
  refine ⟨?_, ?_, ?_⟩
  · have := h.names
    simpa [hn] using this
  · have := h.ids
    simpa [hi] using this
  · intro x hx
    have hcs := h.counts
    simp only [List.mem_append, List.mem_cons] at hx hcs
    rcases hx with hx | rfl | hx
    · exact hcs x (Or.inl hx)
    · exact hc
    · exact hcs x (Or.inr (Or.inr hx))

theorem WF_drop {as bs : List labelEntry} {e : labelEntry}
    (h : labels.WF ⟨as ++ e :: bs⟩) : labels.WF ⟨as ++ bs⟩ := by
  have hsub : (as ++ bs).Sublist (as ++ e :: bs) :=
    List.Sublist.append_left (List.sublist_cons_self e bs) as
  refine ⟨?_, ?_, ?_⟩
  · exact (h.names).sublist (hsub.map _)
  · exact (h.ids).sublist (hsub.map _)
  · intro x hx
    exact h.counts x (hsub.subset hx)

theorem WF_append {es : List labelEntry} {e : labelEntry} (h : labels.WF ⟨es⟩)
    (hn : ∀ x ∈ es, x.Name ≠ e.Name) (hi : e.ID ∉ es.map labelEntry.ID) (hc : 1 ≤ e.Count) :
    labels.WF ⟨es ++ [e]⟩ := by
  refine ⟨?_, ?_, ?_⟩
  · have := h.names
    simp only [List.map_append, List.map_cons, List.map_nil]
    rw [List.nodup_append]
    refine ⟨this, List.nodup_singleton _, ?_⟩
    intro a ha hb
    simp only [List.mem_singleton] at hb
    simp only [List.mem_map] at ha
    obtain ⟨x, hx, rfl⟩ := ha
    exact hn x hx hb
  · have := h.ids
    simp only [List.map_append, List.map_cons, List.map_nil]
    rw [List.nodup_append]
    refine ⟨this, List.nodup_singleton _, ?_⟩
    intro a ha hb
    simp only [List.mem_singleton] at hb
    rw [hb] at ha
    exact hi ha
  · intro x hx
    simp only [List.mem_append, List.mem_singleton] at hx
    rcases hx with hx | rfl
    · exact h.counts x hx
    · exact hc

theorem find_decomposed_self (as bs : List labelEntry) (e : labelEntry) (name : GoString)
    (he : e.Name = name) (has : ∀ x ∈ as, x.Name ≠ name) :
    labels.find ⟨as ++ e :: bs⟩ name = some e := by
  unfold labels.find
  simp only [List.find?_append, List.find?_cons, he, decide_True]
  rw [List.find?_eq_none.mpr (by intro x hx; simpa using has x hx)]
  rfl

/-- What `Acquire` does on a well-formed allocator. -/
theorem acquire_spec {l l' : labels} {name : GoString} {id : labelID} (hwf : l.WF)
    (h : l.Acquire name = .ok (id, l')) :
    l'.WF ∧ l'.HasID name id = true ∧ idCount id l'.entries = idCount id l.entries + 1
      ∧ (∀ j, j ≠ id → idCount j l'.entries = idCount j l.entries)
      ∧ l'.refcount name = l.refcount name + 1 := by
  cases hf : l.find name with
  | some e =>
    rw [acquire_of_find hf] at h
    simp only [Except.ok.injEq, Prod.mk.injEq] at h
    obtain ⟨rfl, rfl⟩ := h
    obtain ⟨as, bs, heq, hname, has, hbs⟩ := find_decompose hwf.names hf
    cases l with
    | mk entries =>
      simp only at heq
      subst heq
      rw [mapCount_decomposed as bs e name _ hname has hbs]
      have hfind' := find_decomposed_self as bs { e with Count := e.Count + 1 } name hname has
      refine ⟨WF_replace hwf rfl rfl (by simp), ?_, ?_, ?_, ?_⟩
      · unfold labels.HasID
        rw [hfind']
        simp
      · simp only [idCount_append, idCount_cons, if_true]
        omega
      · intro j hj
        simp only [idCount_append, idCount_cons, if_neg (Ne.symm hj)]
      · unfold labels.refcount
        rw [hfind', hf]
  | none =>
    unfold labels.Acquire at h
    rw [hf] at h
    simp only at h
    split at h
    · split at h
      · rename_i id' hfree
        simp only [Except.ok.injEq, Prod.mk.injEq] at h
        obtain ⟨rfl, rfl⟩ := h
        have hnotin := firstFree_not_mem _ _ _ _ hfree
        have hall := find_none_iff.mp hf
        cases l with
        | mk entries =>
          simp only at hall hnotin
          have hfind' : labels.find ⟨entries ++ [⟨id', name, 1⟩]⟩ name = some ⟨id', name, 1⟩ := by
            have := find_decomposed_self entries [] ⟨id', name, 1⟩ name rfl hall
            simpa using this
          have hzero : idCount id' entries = 0 := by
            unfold idCount
            rw [List.filter_eq_nil_iff.mpr]
            · rfl
            · intro a ha
              simp only [decide_eq_true_eq]
              intro hid
              exact hnotin (hid ▸ List.mem_map_of_mem _ ha)
          refine ⟨WF_append hwf hall hnotin (le_refl 1), ?_, ?_, ?_, ?_⟩
          · unfold labels.HasID
            rw [hfind']
            simp
          · simp [idCount_append, idCount_cons, idCount_nil]
          · intro j hj
            simp [idCount_append, idCount_cons, idCount_nil, Ne.symm hj]
          · unfold labels.refcount
            rw [hfind', hf]
      · cases h
    · cases h

/-- What `Release` does on a well-formed allocator that maps the name to the id. -/
theorem release_spec {l : labels} {name : GoString} {id : labelID} (hwf : l.WF)
    (hid : l.HasID name id = true) :
    ∃ l', l.Release name = .ok l' ∧ l'.WF ∧ idCount id l'.entries + 1 = idCount id l.entries
      ∧ (∀ j, j ≠ id → idCount j l'.entries = idCount j l.entries)
      ∧ l'.refcount name + 1 = l.refcount name := by
  obtain ⟨e, hf, rfl⟩ := find_of_HasID hid
  obtain ⟨as, bs, heq, hname, has, hbs⟩ := find_decompose hwf.names hf
  have hcount : 1 ≤ e.Count := hwf.counts e (find_some_mem hf).1
  cases l with
  | mk entries =>
    simp only at heq
    subst heq
    unfold labels.Release
    rw [hf]
    dsimp only
    by_cases hz : e.Count - 1 = 0
    · rw [if_pos hz, remove_decomposed as bs e name hname has hbs]
      refine ⟨_, rfl, WF_drop hwf, ?_, ?_, ?_⟩
      · simp only [idCount_append, idCount_cons, if_true]
        omega
      · intro j hj
        simp only [idCount_append, idCount_cons, if_neg (Ne.symm hj)]
        omega
      · have hnone : labels.find ⟨as ++ bs⟩ name = none := by
          rw [find_none_iff]
          intro x hx
          simp only [List.mem_append] at hx
          rcases hx with hx | hx
          · exact has x hx
          · exact hbs x hx
        unfold labels.refcount
        rw [hnone, hf]
        simp only
        omega
    · rw [if_neg hz, mapCount_decomposed as bs e name _ hname has hbs]
      have hfind' := find_decomposed_self as bs { e with Count := e.Count - 1 } name hname has
      refine ⟨_, rfl, WF_replace hwf rfl rfl (by simp only; omega), ?_, ?_, ?_⟩
      · simp only [idCount_append, idCount_cons, if_true]
        omega
      · intro j hj
        simp only [idCount_append, idCount_cons, if_neg (Ne.symm hj)]
      · unfold labels.refcount
        rw [hfind', hf]
        simp only
        omega

/-! ## The operations, case by case -/

/-- The function `AddBinding` with its deferred release carried out: on a well-formed
allocator every failing path gives the state back. -/
theorem AddBinding_eq (d : Dispatcher) (bind : Binding) (updateErr : Bool)
    (hc : ∀ e ∈ d.labels.entries, 1 ≤ e.Count) :
    AddBinding d bind updateErr =
      match d.labels.Acquire bind.Label with
      | .error e => (.error (.addBinding e), d)
      | .ok (id, acquired) =>
        match bind.key with
        | .error e => (.error e, d)
        | .ok key =>
          if d.MapBindings.LookupLPM key = some id then
            (.error (.alreadyBound bind.Label), d)
          else if updateErr then (.error .createBinding, d)
          else (.ok (), { d with labels := acquired,
                                 MapBindings := d.MapBindings.Update key id }) := by
  obtain ⟨lbls, mb, md, out⟩ := d
  unfold AddBinding
  cases hacq : labels.Acquire lbls bind.Label with
  | error e => simp only [hacq]
  | ok r =>
    obtain ⟨id, acquired⟩ := r
    have hrel := releaseIgnoringError_acquire hc hacq
    simp only at hrel
    simp only [hacq]
    cases hkey : bind.key with
    | error e => simp [AddBinding.onError, hrel]
    | ok key =>
      simp only
      cases hl : KMap.LookupLPM mb key with
      | none =>
        cases updateErr <;> simp [AddBinding.onError, AddBinding.update, hrel]
      | some existingID =>
        by_cases hid : existingID = id
        · simp [AddBinding.onError, hrel, hid]
        · cases updateErr <;> simp [AddBinding.onError, AddBinding.update, hrel, hid]

/-- The function `RemoveBinding` on a well-formed allocator: once the lookup and
`HasID` have passed, the delete fails exactly when the key itself is not
stored, and the release cannot fail. -/
theorem RemoveBinding_eq (d : Dispatcher) (bind : Binding) (hwf : d.labels.WF) :
    RemoveBinding d bind =
      match bind.key with
      | .error e => (.error e, d)
      | .ok key =>
        match d.MapBindings.LookupLPM key with
        | none => (.error .lookupLabel, d)
        | some existingID =>
          if d.labels.HasID bind.Label existingID = true then
            match d.MapBindings.Lookup key with
            | none => (.error .removeDelete, d)
            | some _ =>
              (.ok (), { d with
                MapBindings := d.MapBindings.filter (fun e => decide (e.1 ≠ key)),
                labels := d.labels.releaseIgnoringError bind.Label })
          else (.error .labelMismatch, d) := by
  obtain ⟨lbls, mb, md, out⟩ := d
  unfold RemoveBinding
  cases hkey : bind.key with
  | error e => simp only
  | ok key =>
    simp only
    cases hl : KMap.LookupLPM mb key with
    | none => simp only
    | some existingID =>
      simp only
      by_cases hid : labels.HasID lbls bind.Label existingID = true
      · obtain ⟨l', hrel, -⟩ := release_spec hwf hid
        simp only at hrel
        cases hx : KMap.Lookup mb key with
        | none => simp [hid, KMap.Delete, hx]
        | some v => simp [hid, KMap.Delete, hx, hrel, labels.releaseIgnoringError]
      · simp [hid]

/-- The function `RegisterSocket` with its deferred release carried out. -/
theorem RegisterSocket_eq (d : Dispatcher) (label : GoString) (conn : Conn)
    (hc : ∀ e ∈ d.labels.entries, 1 ≤ e.Count) :
    RegisterSocket d label conn =
      if conn.syscallConnErr then (.error .rawConn, d)
      else if conn.controlErr then (.error .controlGetsockopt, d)
      else if conn.opErr then (.error .getsockopt, d)
      else
        match RegisterSocket.validate conn.domain conn.sotype conn.proto
            conn.listening conn.unconnected with
        | .error e => (.error e, d)
        | .ok _ =>
          match d.labels.Acquire label with
          | .error e => (.error (.acquireLabel label e), d)
          | .ok (id, acquired) =>
            if conn.lookupErr then (.error .lookupDestination, d)
            else if conn.controlUpdateErr then (.error .controlUpdate, d)
            else if conn.updateErr then (.error .mapUpdate, { d with labels := acquired })
            else
              (.ok (), (RegisterSocket.store { d with labels := acquired } label
                ⟨toUint8 conn.domain, toUint8 conn.proto, id⟩ conn).2.2) := by
  obtain ⟨lbls, mb, md, out⟩ := d
  unfold RegisterSocket
  by_cases h1 : conn.syscallConnErr = true
  · simp [h1]
  by_cases h2 : conn.controlErr = true
  · simp [h1, h2]
  by_cases h3 : conn.opErr = true
  · simp [h1, h2, h3]
  simp only [h1, h2, h3, if_false]
  cases hv : RegisterSocket.validate conn.domain conn.sotype conn.proto
      conn.listening conn.unconnected with
  | error e => simp only
  | ok u =>
    simp only
    cases hacq : labels.Acquire lbls label with
    | error e => simp only
    | ok r =>
      obtain ⟨id, acquired⟩ := r
      have hrel := releaseIgnoringError_acquire hc hacq
      simp only at hrel
      simp only
      by_cases h4 : conn.lookupErr = true
      · simp [RegisterSocket.store, h4, hrel]
      by_cases h5 : conn.controlUpdateErr = true
      · simp [RegisterSocket.store, h4, h5, hrel]
      by_cases h6 : conn.updateErr = true
      · simp [RegisterSocket.store, h4, h5, h6]
      · simp [RegisterSocket.store, h4, h5, h6]

/-! ## The invariant -/

theorem countP_filter_le {α : Type} (m : List α) (p q : α → Bool) :
    (m.filter q).countP p ≤ m.countP p :=
  List.Sublist.countP_le p (List.filter_sublist m)

theorem countP_filter_succ_le {α : Type} (m : List α) (p q : α → Bool) (x : α) (hx : x ∈ m)
    (hp : p x = true) (hq : q x = false) : (m.filter q).countP p + 1 ≤ m.countP p := by
  induction m with
  | nil => cases hx
  | cons a m ih =>
    rcases List.mem_cons.mp hx with rfl | hmem
    · have := countP_filter_le m p q
      simp only [List.filter_cons, hq, List.countP_cons, hp, if_true]
      simpa using this
    · have := ih hmem
      by_cases hqa : q a = true
      · simp only [List.filter_cons, hqa, if_true, List.countP_cons]
        omega
      · simp only [List.filter_cons, hqa, List.countP_cons]
        simp only [Bool.false_eq_true, if_false]
        omega

theorem countP_Update_le {κ ν : Type} [DecidableEq κ] (m : KMap κ ν) (k : κ) (v : ν)
    (p : κ × ν → Bool) :
    (m.Update k v).countP p ≤ m.countP p + (if p (k, v) = true then 1 else 0) := by
  unfold KMap.Update
  rw [List.countP_cons]
  have := countP_filter_le m p (fun e => decide (e.1 ≠ k))
  omega

theorem key_WF {bind : Binding} {key : bindingKey} (h : bind.key = .ok key) : key.WF := by
  unfold Binding.key at h
  simp only [IPMask.Size] at h
  split at h
  · rename_i hc
    simp only [Except.ok.injEq] at h
    subst h
    refine ⟨?_, ?_⟩
    · simp [To16, hc.1, v4InV6Prefix]
    · simp only; omega
  · split at h
    · rename_i hc
      simp only [Except.ok.injEq] at h
      subst h
      refine ⟨?_, ?_⟩
      · simp [To16, hc.1]
      · simp only; omega
    · cases h

/-! ## Label names in the allocator -/

theorem names_mapCount (P : GoString → Prop) (l : labels) (name : GoString) (f : Nat → Nat)
    (hP : ∀ r ∈ l.entries, P r.Name) : ∀ r ∈ (l.mapCount name f).entries, P r.Name := by
  intro r hr
  simp only [labels.mapCount, List.mem_map] at hr
  obtain ⟨x, hx, rfl⟩ := hr
  by_cases hn : x.Name = name
  · simp only [hn, if_true]
    rw [← hn]
    exact hP x hx
  · simp only [hn, if_false]
    exact hP x hx

theorem names_acquire (P : GoString → Prop) {l l' : labels} {name : GoString} {id : labelID}
    (hP : ∀ r ∈ l.entries, P r.Name) (hn : P name) (h : l.Acquire name = .ok (id, l')) :
    ∀ r ∈ l'.entries, P r.Name := by
  unfold labels.Acquire at h
  cases hf : l.find name with
  | some e =>
    rw [hf] at h
    simp only [Except.ok.injEq, Prod.mk.injEq] at h
    obtain ⟨-, rfl⟩ := h
    exact names_mapCount P l name _ hP
  | none =>
    rw [hf] at h
    simp only at h
    split at h
    · split at h
      · simp only [Except.ok.injEq, Prod.mk.injEq] at h
        obtain ⟨-, rfl⟩ := h
        intro r hr
        simp only [List.mem_append, List.mem_singleton] at hr
        rcases hr with hr | rfl
        · exact hP r hr
        · exact hn
      · cases h
    · cases h

theorem names_releaseIgnoringError (P : GoString → Prop) (l : labels) (name : GoString)
    (hP : ∀ r ∈ l.entries, P r.Name) :
    ∀ r ∈ (l.releaseIgnoringError name).entries, P r.Name := by
  unfold labels.releaseIgnoringError
  cases hrel : l.Release name with
  | error e => exact hP
  | ok l' =>
    simp only
    unfold labels.Release at hrel
    cases hf : l.find name with
    | none => rw [hf] at hrel; cases hrel
    | some e =>
      rw [hf] at hrel
      simp only at hrel
      split at hrel
      · simp only [Except.ok.injEq] at hrel
        subst hrel
        intro r hr
        simp only [labels.remove, List.mem_filter] at hr
        exact hP r hr.1
      · simp only [Except.ok.injEq] at hrel
        subst hrel
        exact names_mapCount P l name _ hP

/-- A name the allocator hands an id for is not empty, when no row has the
empty name: a known name is the name of a row, a new one passed `validName`. -/
theorem acquire_name_ne_nil {l l' : labels} {name : GoString} {id : labelID}
    (hP : ∀ r ∈ l.entries, r.Name ≠ []) (h : l.Acquire name = .ok (id, l')) : name ≠ [] := by
  unfold labels.Acquire at h
  cases hf : l.find name with
  | some e =>
    have hm := find_some_mem hf
    rw [← hm.2]
    exact hP e hm.1
  | none =>
    rw [hf] at h
    simp only at h
    split at h
    · rename_i hv
      intro hnil
      rw [hnil] at hv
      simp [validName] at hv
    · cases h

theorem names_acquire_ne_nil {l l' : labels} {name : GoString} {id : labelID}
    (hP : ∀ r ∈ l.entries, r.Name ≠ []) (h : l.Acquire name = .ok (id, l')) :
    ∀ r ∈ l'.entries, r.Name ≠ [] :=
  names_acquire (fun n => n ≠ []) hP (acquire_name_ne_nil hP h) h

theorem Inv_fresh : Dispatcher.fresh.Inv := by
  refine ⟨⟨by simp [Dispatcher.fresh], by simp [Dispatcher.fresh], by simp [Dispatcher.fresh]⟩,
    ?_, ?_, ?_⟩
  · intro id
    simp [Dispatcher.fresh, Dispatcher.uses]
  · intro e he
    simp [Dispatcher.fresh] at he
  · intro r hr
    simp [Dispatcher.fresh] at hr

theorem Inv_AddBinding {d : Dispatcher} (hinv : d.Inv) (bind : Binding) (updateErr : Bool) :
    (AddBinding d bind updateErr).2.Inv := by
  rw [AddBinding_eq d bind updateErr hinv.wf.counts]
  cases hacq : d.labels.Acquire bind.Label with
  | error e => exact hinv
  | ok r =>
    obtain ⟨id, acquired⟩ := r
    obtain ⟨hwf', -, hcount, hother, -⟩ := acquire_spec hinv.wf hacq
    cases hkey : bind.key with
    | error e => exact hinv
    | ok key =>
      simp only
      split
      · exact hinv
      · split
        · exact hinv
        · refine ⟨hwf', ?_, ?_, names_acquire_ne_nil hinv.names hacq⟩
          · intro j
            have hj := hinv.refs j
            have hup := countP_Update_le d.MapBindings key id (fun e => decide (e.2 = j))
            simp only [Dispatcher.uses] at hj ⊢
            by_cases hji : j = id
            · subst hji
              simp only [decide_True, if_true] at hup
              omega
            · have hne : ¬ id = j := fun h => hji h.symm
              simp only [hne, decide_False, Bool.false_eq_true, if_false] at hup
              rw [hother j hji]
              omega
          · intro e he
            simp only [KMap.Update, List.mem_cons, List.mem_filter] at he
            rcases he with rfl | ⟨he, -⟩
            · exact key_WF hkey
            · exact hinv.keys e he

theorem Inv_RemoveBinding {d : Dispatcher} (hinv : d.Inv) (bind : Binding) :
    (RemoveBinding d bind).2.Inv := by
  rw [RemoveBinding_eq d bind hinv.wf]
  cases hkey : bind.key with
  | error e => exact hinv
  | ok key =>
    simp only
    cases hl : d.MapBindings.LookupLPM key with
    | none => exact hinv
    | some existingID =>
      simp only
      split
      · rename_i hid
        cases hx : d.MapBindings.Lookup key with
        | none => exact hinv
        | some v =>
          have hv : v = existingID := by
            have := KMap.LookupLPM_of_Lookup hx
            rw [hl] at this
            exact (Option.some.inj this).symm
          subst hv
          obtain ⟨l', hrel, hwf', hcount, hother, -⟩ := release_spec hinv.wf hid
          have hrel' : d.labels.releaseIgnoringError bind.Label = l' := by
            simp [labels.releaseIgnoringError, hrel]
          have hnames := names_releaseIgnoringError (fun n => n ≠ []) d.labels bind.Label
            hinv.names
          simp only
          rw [hrel'] at hnames ⊢
          refine ⟨hwf', ?_, ?_, hnames⟩
          · intro j
            have hj := hinv.refs j
            simp only [Dispatcher.uses] at hj ⊢
            by_cases hji : j = v
            · subst hji
              have := countP_filter_succ_le d.MapBindings (fun e => decide (e.2 = j))
                (fun e => decide (e.1 ≠ key)) (key, j) (KMap.mem_of_Lookup hx) (by simp)
                (by simp)
              omega
            · have := countP_filter_le d.MapBindings (fun e => decide (e.2 = j))
                (fun e => decide (e.1 ≠ key))
              rw [hother j hji]
              omega
          · intro e he
            simp only [List.mem_filter] at he
            exact hinv.keys e he.1
      · exact hinv

theorem Inv_RegisterSocket {d : Dispatcher} (hinv : d.Inv) (label : GoString) (conn : Conn) :
    (RegisterSocket d label conn).2.Inv := by
  rw [RegisterSocket_eq d label conn hinv.wf.counts]
  split
  · exact hinv
  split
  · exact hinv
  split
  · exact hinv
  cases hv : RegisterSocket.validate conn.domain conn.sotype conn.proto
      conn.listening conn.unconnected with
  | error e => exact hinv
  | ok u =>
    simp only
    cases hacq : d.labels.Acquire label with
    | error e => exact hinv
    | ok r =>
      obtain ⟨id, acquired⟩ := r
      obtain ⟨hwf', -, hcount, hother, -⟩ := acquire_spec hinv.wf hacq
      simp only
      split
      · exact hinv
      split
      · exact hinv
      split
      · refine ⟨hwf', ?_, hinv.keys, names_acquire_ne_nil hinv.names hacq⟩
        intro j
        have hj := hinv.refs j
        simp only [Dispatcher.uses] at hj ⊢
        by_cases hji : j = id
        · subst hji; omega
        · rw [hother j hji]; exact hj
      · rename_i h4 h5 h6
        simp only [RegisterSocket.store, h4, h5, h6, Bool.false_eq_true, if_false]
        refine ⟨hwf', ?_, hinv.keys, names_acquire_ne_nil hinv.names hacq⟩
        intro j
        have hj := hinv.refs j
        have hup := countP_Update_le d.MapDestinations
          (⟨toUint8 conn.domain, toUint8 conn.proto, id⟩ : destinationKey) conn.socket
          (fun e => decide (e.1.labelID = j))
        simp only [Dispatcher.uses] at hj ⊢
        by_cases hji : j = id
        · subst hji
          simp only [decide_True, if_true] at hup
          omega
        · have hne : ¬ id = j := fun h => hji h.symm
          simp only [hne, decide_False, Bool.false_eq_true, if_false] at hup
          rw [hother j hji]
          omega

theorem Inv_step {d : Dispatcher} (hinv : d.Inv) (op : Op) : (step d op).Inv := by
  cases op with
  | AddBinding bind updateErr => exact Inv_AddBinding hinv bind updateErr
  | RemoveBinding bind => exact Inv_RemoveBinding hinv bind
  | RegisterSocket label conn => exact Inv_RegisterSocket hinv label conn

theorem Inv_foldl (ops : List Op) : ∀ d : Dispatcher, d.Inv → (ops.foldl step d).Inv := by
  induction ops with
  | nil => intro d h; exact h
  | cons op ops ih => intro d h; exact ih _ (Inv_step h op)

/-- Every state reached from a fresh dispatcher satisfies the invariant. -/
theorem Inv_run (ops : List Op) : (run ops).Inv :=
  Inv_foldl ops _ Inv_fresh

/-! ## Adding a binding over an existing key -/

theorem HasID_acquire {l l' : labels} {name other : GoString} {id id' : labelID}
    (hid : l.HasID other id = true) (h : l.Acquire name = .ok (id', l')) :
    l'.HasID other id = true := by
  obtain ⟨e, hf, rfl⟩ := find_of_HasID hid
  unfold labels.Acquire at h
  cases hfn : l.find name with
  | some e' =>
    rw [hfn] at h
    simp only [Except.ok.injEq, Prod.mk.injEq] at h
    obtain ⟨-, rfl⟩ := h
    unfold labels.HasID
    rw [find_mapCount, hf]
    by_cases hn : e.Name = name <;> simp [hn]
  | none =>
    rw [hfn] at h
    simp only at h
    split at h
    · split at h
      · simp only [Except.ok.injEq, Prod.mk.injEq] at h
        obtain ⟨-, rfl⟩ := h
        unfold labels.HasID labels.find
        unfold labels.find at hf
        simp [List.find?_append, hf]
      · cases h
    · cases h

theorem HasID_inj {l : labels} {n₁ n₂ : GoString} {id : labelID} (hwf : l.WF)
    (h₁ : l.HasID n₁ id = true) (h₂ : l.HasID n₂ id = true) : n₁ = n₂ := by
  obtain ⟨e₁, hf₁, hid₁⟩ := find_of_HasID h₁
  obtain ⟨e₂, hf₂, hid₂⟩ := find_of_HasID h₂
  have hm₁ := find_some_mem hf₁
  have hm₂ := find_some_mem hf₂
  have heq : e₁ = e₂ :=
    List.inj_on_of_nodup_map hwf.ids hm₁.1 hm₂.1 (hid₁.trans hid₂.symm)
  rw [← hm₁.2, ← hm₂.2, heq]

/-- What a successful `AddBinding` did. -/
theorem AddBinding_ok {d d' : Dispatcher} {bind : Binding} {updateErr : Bool}
    (hc : ∀ e ∈ d.labels.entries, 1 ≤ e.Count)
    (h : AddBinding d bind updateErr = (.ok (), d')) :
    ∃ id acquired key, d.labels.Acquire bind.Label = .ok (id, acquired) ∧ bind.key = .ok key
      ∧ updateErr = false ∧ d.MapBindings.LookupLPM key ≠ some id
      ∧ d' = { d with labels := acquired, MapBindings := d.MapBindings.Update key id } := by
  rw [AddBinding_eq d bind updateErr hc] at h
  cases hacq : d.labels.Acquire bind.Label with
  | error e => rw [hacq] at h; simp at h
  | ok r =>
    obtain ⟨id, acquired⟩ := r
    rw [hacq] at h
    cases hkey : bind.key with
    | error e => rw [hkey] at h; simp at h
    | ok key =>
      rw [hkey] at h
      simp only at h
      split at h
      · simp at h
      · rename_i hl
        split at h
        · simp at h
        · rename_i hu
          simp only [Prod.mk.injEq, true_and] at h
          exact ⟨id, acquired, key, rfl, rfl, by simpa using hu, hl, h.symm⟩

/-! ## Labels left behind -/

/-- C3 (the code at the failing input): from a fresh dispatcher,
`AddBinding("a", TCP, 10.0.0.0/8, 0)`, then `AddBinding("b", TCP, 10.0.0.0/8, 0)`
over the same key, then `RemoveBinding("b", TCP, 10.0.0.0/8, 0)` all succeed and
leave the binding table empty, while the allocator still holds the label "a"
with refcount 1: the overwrite dropped the entry of "a" without releasing it. -/
theorem run_overwrite_then_remove_leaves_label :
    (AddBinding Dispatcher.fresh ⟨ascii "a", TCP, ⟨[10, 0, 0, 0], ⟨8, 32⟩⟩, 0⟩ false).1 = .ok ()
    ∧ (AddBinding (run [.AddBinding ⟨ascii "a", TCP, ⟨[10, 0, 0, 0], ⟨8, 32⟩⟩, 0⟩ false])
        ⟨ascii "b", TCP, ⟨[10, 0, 0, 0], ⟨8, 32⟩⟩, 0⟩ false).1 = .ok ()
    ∧ (RemoveBinding (run [.AddBinding ⟨ascii "a", TCP, ⟨[10, 0, 0, 0], ⟨8, 32⟩⟩, 0⟩ false,
          .AddBinding ⟨ascii "b", TCP, ⟨[10, 0, 0, 0], ⟨8, 32⟩⟩, 0⟩ false])
        ⟨ascii "b", TCP, ⟨[10, 0, 0, 0], ⟨8, 32⟩⟩, 0⟩).1 = .ok ()
    ∧ (run [.AddBinding ⟨ascii "a", TCP, ⟨[10, 0, 0, 0], ⟨8, 32⟩⟩, 0⟩ false,
          .AddBinding ⟨ascii "b", TCP, ⟨[10, 0, 0, 0], ⟨8, 32⟩⟩, 0⟩ false,
          .RemoveBinding ⟨ascii "b", TCP, ⟨[10, 0, 0, 0], ⟨8, 32⟩⟩, 0⟩]).MapBindings = []
    ∧ (run [.AddBinding ⟨ascii "a", TCP, ⟨[10, 0, 0, 0], ⟨8, 32⟩⟩, 0⟩ false,
          .AddBinding ⟨ascii "b", TCP, ⟨[10, 0, 0, 0], ⟨8, 32⟩⟩, 0⟩ false,
          .RemoveBinding ⟨ascii "b", TCP, ⟨[10, 0, 0, 0], ⟨8, 32⟩⟩, 0⟩]).labels
        = ⟨[⟨1, ascii "a", 1⟩]⟩ := by
  decide

/-! ## No entry carries an unallocated id -/

theorem exists_row_of_idCount_pos (id : labelID) (es : List labelEntry)
    (h : 1 ≤ idCount id es) : ∃ r ∈ es, r.ID = id := by
  by_contra hcon
  have hnil : es.filter (fun e => decide (e.ID = id)) = [] := by
    rw [List.filter_eq_nil_iff]
    intro a ha
    simp only [decide_eq_true_eq]
    intro hid
    exact hcon ⟨a, ha, hid⟩
  simp [idCount, hnil] at h

/-- C4: in every state reached from a freshly created dispatcher by any
sequence of `AddBinding`, `RemoveBinding` and `RegisterSocket` calls, successful
or failing, every entry of the binding table and every entry of the
destination table carries a label id for which the allocator holds a row with
refcount at least 1. -/
theorem table_ids_allocated (ops : List Op) :
    (∀ e ∈ (run ops).MapBindings,
        ∃ r ∈ (run ops).labels.entries, r.ID = e.2 ∧ 1 ≤ r.Count)
    ∧ (∀ e ∈ (run ops).MapDestinations,
        ∃ r ∈ (run ops).labels.entries, r.ID = e.1.labelID ∧ 1 ≤ r.Count) := by
  have hinv := Inv_run ops
  constructor
  · intro e he
    have hrefs := hinv.refs e.2
    have hpos : 0 < (run ops).MapBindings.countP (fun x => decide (x.2 = e.2)) :=
      List.countP_pos_iff.mpr ⟨e, he, by simp⟩
    obtain ⟨r, hr, hid⟩ := exists_row_of_idCount_pos
      e.2 (run ops).labels.entries (by simp only [Dispatcher.uses] at hrefs; omega)
    exact ⟨r, hr, hid, hinv.wf.counts r hr⟩
  · intro e he
    have hrefs := hinv.refs e.1.labelID
    have hpos : 0 < (run ops).MapDestinations.countP
        (fun x => decide (x.1.labelID = e.1.labelID)) :=
      List.countP_pos_iff.mpr ⟨e, he, by simp⟩
    obtain ⟨r, hr, hid⟩ := exists_row_of_idCount_pos
      e.1.labelID (run ops).labels.entries
      (by simp only [Dispatcher.uses] at hrefs; omega)
    exact ⟨r, hr, hid, hinv.wf.counts r hr⟩

/-! ## Removing a binding -/

/-- C5 (amended): for every binding with key `key` on a well-formed allocator,
the binding table being looked up by longest prefix match: `RemoveBinding`
fails with the lookup error (NotFound) exactly when no entry of the table
covers the key; it fails with "label mismatch" when the lookup answers with an
id, of the entry for the key or of the longest covering prefix, for which
`HasID(bind.Label, id)` is false; it fails with the delete error when the
lookup answered with the id of a covering prefix that belongs to the label
while the key itself has no entry; in all three cases the state is left as it
was.  When the key itself has an entry and its id belongs to the label, it
succeeds, deletes exactly the entry for the key (every other key keeps its
entry), and the refcount of the label is one less. -/
theorem RemoveBinding_cases (d : Dispatcher) (bind : Binding) (key : bindingKey)
    (hwf : d.labels.WF) (hkey : bind.key = .ok key) :
    (RemoveBinding d bind = (.error .lookupLabel, d)
        ↔ ∀ e ∈ d.MapBindings, e.1.covers key = false)
    ∧ (∀ id, d.MapBindings.LookupLPM key = some id → d.labels.HasID bind.Label id = false →
        RemoveBinding d bind = (.error .labelMismatch, d))
    ∧ (∀ id, d.MapBindings.LookupLPM key = some id → d.labels.HasID bind.Label id = true →
        d.MapBindings.Lookup key = none →
        RemoveBinding d bind = (.error .removeDelete, d)
          ∧ ∃ e ∈ d.MapBindings, e.1.covers key = true ∧ e.1 ≠ key ∧ e.2 = id)
    ∧ (∀ id, d.MapBindings.Lookup key = some id →
        d.MapBindings.LookupLPM key = some id
        ∧ (d.labels.HasID bind.Label id = true →
          ∃ d', RemoveBinding d bind = (.ok (), d')
            ∧ d'.MapBindings = d.MapBindings.filter (fun e => decide (e.1 ≠ key))
            ∧ d'.MapBindings.Lookup key = none
            ∧ (∀ k', k' ≠ key → d'.MapBindings.Lookup k' = d.MapBindings.Lookup k')
            ∧ d'.MapDestinations = d.MapDestinations
            ∧ d'.labels.refcount bind.Label + 1 = d.labels.refcount bind.Label)) := by
  rw [RemoveBinding_eq d bind hwf, hkey]
  refine ⟨?_, ?_, ?_, ?_⟩
  · rw [← KMap.LookupLPM_eq_none_iff]
    cases hl : d.MapBindings.LookupLPM key with
    | none => simp [hl]
    | some id =>
      by_cases hid : d.labels.HasID bind.Label id = true
      · cases hx : d.MapBindings.Lookup key <;> simp [hl, hid, hx]
      · simp [hl, hid]
  · intro id hl hid
    simp [hl, hid]
  · intro id hl hid hx
    exact ⟨by simp [hl, hid, hx], KMap.LookupLPM_cover hl hx⟩
  · intro id hx
    have hl := KMap.LookupLPM_of_Lookup hx
    refine ⟨hl, ?_⟩
    intro hid
    obtain ⟨l', hrel, -, -, -, hcount⟩ := release_spec hwf hid
    have hrel' : d.labels.releaseIgnoringError bind.Label = l' := by
      simp [labels.releaseIgnoringError, hrel]
    simp only [hl, hx, hid, if_true, hrel']
    exact ⟨_, rfl, rfl, KMap.Lookup_filter_self _ _,
      fun k' hk' => KMap.Lookup_filter_ne _ _ _ hk', rfl, hcount⟩

theorem RemoveBinding_cases_witness :
    ∃ d', RemoveBinding
        ⟨⟨[⟨1, ascii "a", 1⟩]⟩, [(⟨104, TCP, 0, v4InV6Prefix ++ [10, 0, 0, 0]⟩, 1)], [], []⟩
        ⟨ascii "a", TCP, ⟨[10, 0, 0, 0], ⟨8, 32⟩⟩, 0⟩ = (.ok (), d')
      ∧ d'.MapBindings = []
      ∧ d'.labels.refcount (ascii "a") + 1 = 1 := by
  obtain ⟨d', h1, h2, -, -, -, h3⟩ :=
    ((RemoveBinding_cases
      ⟨⟨[⟨1, ascii "a", 1⟩]⟩, [(⟨104, TCP, 0, v4InV6Prefix ++ [10, 0, 0, 0]⟩, 1)], [], []⟩
      ⟨ascii "a", TCP, ⟨[10, 0, 0, 0], ⟨8, 32⟩⟩, 0⟩ ⟨104, TCP, 0, v4InV6Prefix ++ [10, 0, 0, 0]⟩
      ⟨by decide, by decide, by decide⟩ (by decide)).2.2.2 1 (by decide)).2 (by decide)
  exact ⟨d', h1, h2, h3⟩

/-- C5 (counterexample): after `AddBinding("a", TCP, 10.0.0.0/8, 0)` on a fresh
dispatcher the binding table has no entry for the key of
`("b", TCP, 10.1.0.0/16, 0)`, yet `RemoveBinding` of that binding fails with
"label mismatch", not with the lookup error: the lookup answered with the id
stored under the covering prefix 10.0.0.0/8.  With the label "a" in place of
"b" the same call fails with the delete error.  Both leave the state as it
was. -/
theorem RemoveBinding_cases_counterexample :
    Binding.key ⟨ascii "b", TCP, ⟨[10, 1, 0, 0], ⟨16, 32⟩⟩, 0⟩
        = .ok ⟨112, TCP, 0, v4InV6Prefix ++ [10, 1, 0, 0]⟩
    ∧ (run [.AddBinding ⟨ascii "a", TCP, ⟨[10, 0, 0, 0], ⟨8, 32⟩⟩, 0⟩ false]).MapBindings
        = [(⟨104, TCP, 0, v4InV6Prefix ++ [10, 0, 0, 0]⟩, 1)]
    ∧ (run [.AddBinding ⟨ascii "a", TCP, ⟨[10, 0, 0, 0], ⟨8, 32⟩⟩, 0⟩ false]).MapBindings.Lookup
        ⟨112, TCP, 0, v4InV6Prefix ++ [10, 1, 0, 0]⟩ = none
    ∧ RemoveBinding (run [.AddBinding ⟨ascii "a", TCP, ⟨[10, 0, 0, 0], ⟨8, 32⟩⟩, 0⟩ false])
        ⟨ascii "b", TCP, ⟨[10, 1, 0, 0], ⟨16, 32⟩⟩, 0⟩
      = (.error .labelMismatch,
          run [.AddBinding ⟨ascii "a", TCP, ⟨[10, 0, 0, 0], ⟨8, 32⟩⟩, 0⟩ false])
    ∧ RemoveBinding (run [.AddBinding ⟨ascii "a", TCP, ⟨[10, 0, 0, 0], ⟨8, 32⟩⟩, 0⟩ false])
        ⟨ascii "a", TCP, ⟨[10, 1, 0, 0], ⟨16, 32⟩⟩, 0⟩
      = (.error .removeDelete,
          run [.AddBinding ⟨ascii "a", TCP, ⟨[10, 0, 0, 0], ⟨8, 32⟩⟩, 0⟩ false]) := by
  decide

/-! ## Listing the bindings -/

theorem key_newBindingFromBPF (label : GoString) (key : bindingKey) (h : key.WF) :
    (newBindingFromBPF label key).key = .ok key := by
  obtain ⟨hlen, hpl⟩ := h
  obtain ⟨pl, proto, port, ip⟩ := key
  simp only at hlen hpl
  unfold newBindingFromBPF
  simp only
  split
  · rename_i hc
    have hdrop : (ip.drop 12).length = 4 := by simp [hlen]
    have hip : v4InV6Prefix ++ ip.drop 12 = ip := by
      rw [← hc.1]
      exact List.take_append_drop 12 ip
    unfold Binding.key
    simp only [IPMask.Size, hdrop, true_and]
    rw [if_pos (by omega)]
    simp only [To16, hdrop, if_true, hip]
    congr 2
    omega
  · unfold Binding.key
    simp only [IPMask.Size, hlen, true_and]
    rw [if_neg (by omega), if_pos hpl]
    simp [To16, hlen]

theorem find?_of_nodup_map {α β : Type} [DecidableEq β] (g : α → β) :
    ∀ (es : List α) (e : α), (es.map g).Nodup → e ∈ es →
      es.find? (fun x => decide (g x = g e)) = some e := by
  intro es
  induction es with
  | nil => intro e _ he; cases he
  | cons a es ih =>
    intro e hnd he
    simp only [List.map_cons, List.nodup_cons] at hnd
    rcases List.mem_cons.mp he with rfl | hmem
    · simp [List.find?_cons]
    · have hne : g a ≠ g e := by
        intro heq
        exact hnd.1 (heq ▸ List.mem_map_of_mem g hmem)
      simp only [List.find?_cons, hne, decide_False]
      exact ih e hnd.2 hmem

theorem goMapIndex_List {l : labels} (hwf : l.WF) {e : labelEntry} (he : e ∈ l.entries) :
    goMapIndex l.List e.ID = e.Name := by
  unfold goMapIndex KMap.Lookup labels.List
  rw [List.find?_map]
  have := find?_of_nodup_map labelEntry.ID l.entries e hwf.ids he
  have hfun : ((fun (x : labelID × GoString) => decide (x.1 = e.ID))
      ∘ fun (x : labelEntry) => (x.ID, x.Name)) = fun x => decide (x.ID = e.ID) := by
    funext x; rfl
  rw [hfun, this]
  rfl

theorem collect_eq_ok (L : KMap labelID GoString) :
    ∀ (m : List (bindingKey × labelID)) (acc : List Binding),
      (∀ e ∈ m, goMapIndex L e.2 ≠ []) →
      Bindings.collect L m acc
        = .ok (acc ++ m.map (fun e => newBindingFromBPF (goMapIndex L e.2) e.1)) := by
  intro m
  induction m with
  | nil => intro acc _; simp [Bindings.collect]
  | cons e m ih =>
    intro acc h
    obtain ⟨key, id⟩ := e
    have h1 : goMapIndex L id ≠ [] := h (key, id) (List.mem_cons_self _ _)
    unfold Bindings.collect
    simp only [h1, if_false]
    rw [ih _ (fun x hx => h x (List.mem_cons_of_mem _ hx))]
    simp

theorem collect_ok_inv (L : KMap labelID GoString) :
    ∀ (m : List (bindingKey × labelID)) (acc r : List Binding),
      Bindings.collect L m acc = .ok r →
      (∀ e ∈ m, goMapIndex L e.2 ≠ [])
        ∧ r = acc ++ m.map (fun e => newBindingFromBPF (goMapIndex L e.2) e.1) := by
  intro m
  induction m with
  | nil =>
    intro acc r h
    simp only [Bindings.collect, Except.ok.injEq] at h
    simp [h]
  | cons e m ih =>
    intro acc r h
    obtain ⟨key, id⟩ := e
    unfold Bindings.collect at h
    simp only at h
    split at h
    · cases h
    · rename_i hne
      obtain ⟨h1, h2⟩ := ih _ _ h
      refine ⟨?_, ?_⟩
      · intro x hx
        rcases List.mem_cons.mp hx with rfl | hx
        · exact hne
        · exact h1 x hx
      · rw [h2]; simp

theorem mem_sortSlice {α : Type} (less : α → α → Bool) (xs : List α) (x : α) :
    x ∈ sortSlice less xs ↔ x ∈ xs :=
  (List.perm_insertionSort _ xs).mem_iff

theorem row_of_binding {d : Dispatcher} (hinv : d.Inv) {e : bindingKey × labelID}
    (he : e ∈ d.MapBindings) : ∃ r ∈ d.labels.entries, r.ID = e.2 := by
  have hrefs := hinv.refs e.2
  have hpos : 0 < d.MapBindings.countP (fun x => decide (x.2 = e.2)) :=
    List.countP_pos_iff.mpr ⟨e, he, by simp⟩
  exact exists_row_of_idCount_pos e.2 d.labels.entries
    (by simp only [Dispatcher.uses] at hrefs; omega)

/-- When every entry has a label, and neither `labels.List()` nor the
iteration fails, `Bindings` returns the joined entries, sorted. -/
theorem Bindings_eq_ok_of_labelled {d : Dispatcher}
    (hall : ∀ e ∈ d.MapBindings, goMapIndex d.labels.List e.2 ≠ []) :
    Bindings d false none
      = .ok (sortSlice Bindings.less (d.MapBindings.map d.bindingOf)) := by
  unfold Bindings
  simp only [Bindings.visited, collect_eq_ok _ _ [] hall, List.nil_append]
  rfl

/-- A list is returned only when neither `labels.List()` nor the iteration
failed and every entry has a label; it is then the joined entries, sorted. -/
theorem Bindings_ok_inv {d : Dispatcher} {listErr : Bool} {iterErr : Option Nat}
    {bs : List Binding} (h : Bindings d listErr iterErr = .ok bs) :
    listErr = false ∧ iterErr = none
      ∧ (∀ e ∈ d.MapBindings, goMapIndex d.labels.List e.2 ≠ [])
      ∧ bs = sortSlice Bindings.less (d.MapBindings.map d.bindingOf) := by
  unfold Bindings at h
  cases listErr with
  | true => simp at h
  | false =>
    simp only [Bool.false_eq_true, if_false] at h
    cases hc : Bindings.collect d.labels.List (Bindings.visited d.MapBindings iterErr) [] with
    | error e => rw [hc] at h; cases h
    | ok r =>
      rw [hc] at h
      simp only at h
      cases iterErr with
      | some n => simp at h
      | none =>
        simp only [Option.isSome_none, Bool.false_eq_true, if_false, Except.ok.injEq] at h
        obtain ⟨h1, h2⟩ := collect_ok_inv _ _ _ _ hc
        simp only [Bindings.visited, List.nil_append] at h1 h2
        refine ⟨rfl, rfl, h1, ?_⟩
        rw [← h, h2]
        rfl

/-- In a state that satisfies the invariant every entry has a label. -/
theorem labelled_of_Inv {d : Dispatcher} (hinv : d.Inv) :
    ∀ e ∈ d.MapBindings, goMapIndex d.labels.List e.2 ≠ [] := by
  intro e he
  obtain ⟨r, hr, hid⟩ := row_of_binding hinv he
  rw [← hid, goMapIndex_List hinv.wf hr]
  exact hinv.names r hr

/-- On a state that satisfies the invariant, `Bindings` succeeds when neither
`labels.List()` nor the iteration fails, and returns the joined entries,
sorted. -/
theorem Bindings_eq_ok {d : Dispatcher} (hinv : d.Inv) :
    Bindings d false none
      = .ok (sortSlice Bindings.less (d.MapBindings.map d.bindingOf)) :=
  Bindings_eq_ok_of_labelled (labelled_of_Inv hinv)

/-! ## A binding is listed after it is added and not after it is removed -/

/-- What a successful `RemoveBinding` did to the binding table. -/
theorem RemoveBinding_ok {d d' : Dispatcher} {bind : Binding} {key : bindingKey}
    (hwf : d.labels.WF) (hkey : bind.key = .ok key)
    (h : RemoveBinding d bind = (.ok (), d')) :
    d'.MapBindings = d.MapBindings.filter (fun e => decide (e.1 ≠ key)) := by
  rw [RemoveBinding_eq d bind hwf, hkey] at h
  simp only at h
  cases hl : d.MapBindings.LookupLPM key with
  | none => rw [hl] at h; simp at h
  | some existingID =>
    rw [hl] at h
    simp only at h
    split at h
    · cases hx : d.MapBindings.Lookup key with
      | none => rw [hx] at h; simp at h
      | some v =>
        rw [hx] at h
        simp only [Prod.mk.injEq, true_and] at h
        rw [← h]
    · simp at h

/-- C6: for every binding and every state reached from a fresh dispatcher by
any sequence of calls: if `AddBinding` succeeds, the binding table holds for
the binding's key the id the allocator holds for its label, and the entry of
every other key is unchanged; the following `Bindings()`, when `labels.List()`
and the iteration do not fail, returns a list, and every list it returns
contains the entry with that label for that key.  If `RemoveBinding` of the
binding then succeeds, the following `Bindings()` again returns a list when
nothing fails, and no list it returns contains an entry for the key. -/
theorem AddBinding_then_Bindings (ops : List Op) (bind : Binding) (updateErr : Bool)
    (d1 : Dispatcher) (h : AddBinding (run ops) bind updateErr = (.ok (), d1)) :
    ∃ key id, bind.key = .ok key
      ∧ d1.MapBindings.Lookup key = some id ∧ d1.MapBindings.LookupLPM key = some id
      ∧ d1.labels.HasID bind.Label id = true
      ∧ (∀ k', k' ≠ key → d1.MapBindings.Lookup k' = (run ops).MapBindings.Lookup k')
      ∧ (∃ bs, Bindings d1 false none = .ok bs)
      ∧ (∀ listErr iterErr bs, Bindings d1 listErr iterErr = .ok bs →
          newBindingFromBPF bind.Label key ∈ bs)
      ∧ ∀ d2, RemoveBinding d1 bind = (.ok (), d2) →
          (∃ bs2, Bindings d2 false none = .ok bs2)
          ∧ ∀ listErr iterErr bs2, Bindings d2 listErr iterErr = .ok bs2 →
              ∀ x ∈ bs2, x.key ≠ .ok key := by
  have hinv := Inv_run ops
  have hinv1 : d1.Inv := by
    have := Inv_AddBinding hinv bind updateErr
    rw [h] at this
    exact this
  obtain ⟨id, acquired, key, hacq, hkey, -, -, hd1⟩ := AddBinding_ok hinv.wf.counts h
  obtain ⟨-, hid1, -⟩ := acquire_spec hinv.wf hacq
  have hlabels1 : d1.labels = acquired := by rw [hd1]
  have hmap1 : d1.MapBindings = (run ops).MapBindings.Update key id := by rw [hd1]
  have hlook1 : d1.MapBindings.Lookup key = some id := by
    rw [hmap1]; exact KMap.Lookup_Update_self _ _ _
  refine ⟨key, id, hkey, hlook1, KMap.LookupLPM_of_Lookup hlook1, ?_, ?_,
    ⟨_, Bindings_eq_ok hinv1⟩, ?_, ?_⟩
  · rw [hlabels1]; exact hid1
  · intro k' hk'
    rw [hmap1]; exact KMap.Lookup_Update_ne _ _ _ _ hk'
  · intro listErr iterErr bs hbs
    obtain ⟨-, -, -, rfl⟩ := Bindings_ok_inv hbs
    rw [mem_sortSlice, List.mem_map]
    refine ⟨(key, id), ?_, ?_⟩
    · rw [hmap1]; exact List.mem_cons_self _ _
    · obtain ⟨e, hf, he⟩ := find_of_HasID (hlabels1 ▸ hid1)
      have hmem := find_some_mem hf
      unfold Dispatcher.bindingOf
      simp only
      rw [← he, goMapIndex_List hinv1.wf hmem.1, hmem.2]
  · intro d2 h2
    have hinv2 : d2.Inv := by
      have := Inv_RemoveBinding hinv1 bind
      rw [h2] at this
      exact this
    refine ⟨⟨_, Bindings_eq_ok hinv2⟩, ?_⟩
    intro listErr iterErr bs2 hbs x hx
    obtain ⟨-, -, -, rfl⟩ := Bindings_ok_inv hbs
    rw [mem_sortSlice, List.mem_map] at hx
    obtain ⟨e, he, rfl⟩ := hx
    have hmap2 := RemoveBinding_ok hinv1.wf hkey h2
    have hne : e.1 ≠ key := by
      rw [hmap2, List.mem_filter] at he
      simpa using he.2
    unfold Dispatcher.bindingOf
    rw [key_newBindingFromBPF _ _ (hinv2.keys e he)]
    intro heq
    exact hne (Except.ok.inj heq)

theorem AddBinding_then_Bindings_witness :
    ∃ key bs, Binding.key ⟨ascii "web", TCP, ⟨[192, 0, 2, 0], ⟨24, 32⟩⟩, 80⟩ = .ok key
      ∧ Bindings
          (AddBinding (run []) ⟨ascii "web", TCP, ⟨[192, 0, 2, 0], ⟨24, 32⟩⟩, 80⟩ false).2
          false none = .ok bs
      ∧ newBindingFromBPF (ascii "web") key ∈ bs :=
  match AddBinding_then_Bindings [] ⟨ascii "web", TCP, ⟨[192, 0, 2, 0], ⟨24, 32⟩⟩, 80⟩ false
      (AddBinding (run []) ⟨ascii "web", TCP, ⟨[192, 0, 2, 0], ⟨24, 32⟩⟩, 80⟩ false).2
      (by decide) with
  | ⟨key, _, hk, _, _, _, _, ⟨bs, hbs⟩, hmem, _⟩ => ⟨key, bs, hk, hbs, hmem _ _ _ hbs⟩

/-! ## The order of the listing -/

theorem bytesCompare_eq_zero : ∀ (a b : List Nat), bytesCompare a b = 0 ↔ a = b := by
  intro a
  induction a with
  | nil => intro b; cases b <;> simp [bytesCompare]
  | cons x xs ih =>
    intro b
    cases b with
    | nil => simp [bytesCompare]
    | cons y ys =>
      unfold bytesCompare
      by_cases h1 : x < y
      · have : x ≠ y := Nat.ne_of_lt h1
        simp [h1, this]
      · by_cases h2 : y < x
        · have : x ≠ y := Nat.ne_of_gt h2
          simp [h1, h2, this]
        · have : x = y := by omega
          simp [h1, h2, this, ih ys]

theorem bytesCompare_neg : ∀ (a b : List Nat), bytesCompare a b < 0 ↔ a < b := by
  intro a
  induction a with
  | nil =>
    intro b
    cases b with
    | nil => simp [bytesCompare]
    | cons y ys => simp [bytesCompare, List.nil_lt_cons]
  | cons x xs ih =>
    intro b
    cases b with
    | nil =>
      simp only [bytesCompare]
      constructor
      · intro h; omega
      · intro h; cases h
    | cons y ys =>
      unfold bytesCompare
      by_cases h1 : x < y
      · simp only [h1, if_true]
        constructor
        · intro _; exact List.Lex.rel h1
        · intro _; omega
      · by_cases h2 : y < x
        · simp only [h1, h2, if_true, if_false]
          constructor
          · intro h; omega
          · intro h
            cases h with
            | cons h' => omega
            | rel h' => omega
        · have hxy : x = y := by omega
          subst hxy
          simp only [h1, if_false]
          rw [ih ys]
          exact (List.Lex.cons_iff).symm

/-- The source's `less` is the strict lexicographic order of the sort keys. -/
theorem less_iff_sortKey_lt (a b : Binding) :
    Bindings.less a b = true ↔ Bindings.sortKey a < Bindings.sortKey b := by
  unfold Bindings.less Bindings.sortKey
  simp only [Prod.Lex.lt_iff, stringLess, decide_eq_true_eq, bytesCompare_neg]
  by_cases h1 : a.Label = b.Label
  · by_cases h2 : a.Protocol = b.Protocol
    · by_cases h3 : a.Port = b.Port
      · by_cases h4 : To16 a.Prefix.IP = To16 b.Prefix.IP
        · simp [h1, h2, h3, h4, bytesCompare_eq_zero]
        · have h4' : ¬ bytesCompare (To16 a.Prefix.IP) (To16 b.Prefix.IP) = 0 :=
            fun h => h4 ((bytesCompare_eq_zero _ _).mp h)
          simp [h1, h2, h3, h4, h4', bytesCompare_neg]
      · simp [h1, h2, h3]
    · simp [h1, h2]
  · simp [h1]

theorem less_eq_false_iff (a b : Binding) :
    Bindings.less b a = false ↔ Bindings.sortKey a ≤ Bindings.sortKey b := by
  rw [← not_lt, ← less_iff_sortKey_lt]
  simp

theorem sortSlice_less_sorted (bs : List Binding) :
    (sortSlice Bindings.less bs).Pairwise (fun a b => Bindings.less b a = false) := by
  haveI : IsTotal Binding (fun a b => Bindings.less b a = false) :=
    ⟨fun a b => by
      simp only [less_eq_false_iff]
      exact le_total _ _⟩
  haveI : IsTrans Binding (fun a b => Bindings.less b a = false) :=
    ⟨fun a b c => by
      simp only [less_eq_false_iff]
      exact le_trans⟩
  exact List.sorted_insertionSort _ bs

theorem sublist_pair_of_mem {α : Type} {a b : α} :
    ∀ {l : List α}, a ∈ l → b ∈ l → a ≠ b → [a, b].Sublist l ∨ [b, a].Sublist l := by
  intro l
  induction l with
  | nil => intro ha; cases ha
  | cons x xs ih =>
    intro ha hb hab
    rcases List.mem_cons.mp ha with rfl | ha'
    · rcases List.mem_cons.mp hb with rfl | hb'
      · exact absurd rfl hab
      · exact Or.inl (List.Sublist.cons₂ _ (List.singleton_sublist.mpr hb'))
    · rcases List.mem_cons.mp hb with rfl | hb'
      · exact Or.inr (List.Sublist.cons₂ _ (List.singleton_sublist.mpr ha'))
      · rcases ih ha' hb' hab with h | h
        · exact Or.inl (List.Sublist.cons _ h)
        · exact Or.inr (List.Sublist.cons _ h)

/-- C7: for every content of the binding table, read in any iteration order
(the list `d.MapBindings`), a successful `Bindings()` returns a permutation of
the table's entries joined with their labels, sorted in ascending
lexicographic order of (label, protocol, port, address as 16 bytes, prefix
length): no element is greater than a later one under the source's `less`, in
particular for every adjacent pair.  A TCP binding (protocol 6) is less than a
UDP binding (protocol 17) with the same label, and stands before it in the
result. -/
theorem Bindings_sorted (d : Dispatcher) (listErr : Bool) (iterErr : Option Nat)
    (bs : List Binding) (h : Bindings d listErr iterErr = .ok bs) :
    bs.Perm (d.MapBindings.map d.bindingOf)
    ∧ bs.Pairwise (fun a b => Bindings.sortKey a ≤ Bindings.sortKey b)
    ∧ bs.Chain' (fun a b => Bindings.less b a = false)
    ∧ ∀ a b, a.Label = b.Label → a.Protocol = TCP → b.Protocol = UDP →
        Bindings.less a b = true ∧ (a ∈ bs → b ∈ bs → [a, b].Sublist bs) := by
  obtain ⟨-, -, -, h⟩ := Bindings_ok_inv h
  have hsorted := sortSlice_less_sorted (d.MapBindings.map d.bindingOf)
  rw [← h] at hsorted
  have hr : True := trivial
  cases hr with
  | intro =>
    have hless : ∀ a b : Binding, a.Label = b.Label → a.Protocol = TCP → b.Protocol = UDP →
        Bindings.less a b = true := by
      intro a b hl ha hb
      simp [Bindings.less, hl, ha, hb, TCP, UDP]
    refine ⟨?_, ?_, ?_, ?_⟩
    · rw [h]
      exact List.perm_insertionSort _ _
    · exact hsorted.imp (fun hab => (less_eq_false_iff _ _).mp hab)
    · exact List.Pairwise.chain' hsorted
    · intro a b hl ha hb
      refine ⟨hless a b hl ha hb, ?_⟩
      intro hma hmb
      have hne : a ≠ b := by
        intro heq
        rw [heq, hb] at ha
        simp [TCP, UDP] at ha
      rcases sublist_pair_of_mem hma hmb hne with hs | hs
      · exact hs
      · have := List.pairwise_iff_forall_sublist.mp hsorted hs
        rw [hless a b hl ha hb] at this
        cases this

theorem Bindings_sorted_witness :
    (Bindings (run [.AddBinding ⟨ascii "web", UDP, ⟨[192, 0, 2, 0], ⟨24, 32⟩⟩, 80⟩ false,
        .AddBinding ⟨ascii "web", TCP, ⟨[192, 0, 2, 0], ⟨24, 32⟩⟩, 80⟩ false]) false none
      = .ok [⟨ascii "web", TCP, ⟨[192, 0, 2, 0], ⟨24, 32⟩⟩, 80⟩,
          ⟨ascii "web", UDP, ⟨[192, 0, 2, 0], ⟨24, 32⟩⟩, 80⟩])
    ∧ List.Chain' (fun a b => Bindings.less b a = false)
        [⟨ascii "web", TCP, ⟨[192, 0, 2, 0], ⟨24, 32⟩⟩, 80⟩,
          ⟨ascii "web", UDP, ⟨[192, 0, 2, 0], ⟨24, 32⟩⟩, 80⟩] :=
  ⟨by decide,
    (Bindings_sorted
      (run [.AddBinding ⟨ascii "web", UDP, ⟨[192, 0, 2, 0], ⟨24, 32⟩⟩, 80⟩ false,
        .AddBinding ⟨ascii "web", TCP, ⟨[192, 0, 2, 0], ⟨24, 32⟩⟩, 80⟩ false])
      false none _ (by decide)).2.2.1⟩

/-! ## Registering a socket -/

theorem validate_ok_iff (domain sotype proto : Int) (listening unconnected : Bool) :
    RegisterSocket.validate domain sotype proto listening unconnected = .ok ()
      ↔ (domain = unix.AF_INET ∨ domain = unix.AF_INET6)
        ∧ ((sotype = unix.SOCK_STREAM ∧ proto = unix.IPPROTO_TCP ∧ listening = true)
          ∨ (sotype = unix.SOCK_DGRAM ∧ proto = unix.IPPROTO_UDP ∧ unconnected = true)) := by
  unfold RegisterSocket.validate
  simp only [unix.AF_INET, unix.AF_INET6, unix.SOCK_STREAM, unix.SOCK_DGRAM,
    unix.IPPROTO_TCP, unix.IPPROTO_UDP]
  split_ifs with h1 h2 h3 h4 h5 h6
  · simp only [reduceCtorEq, false_iff]
    omega
  · simp only [reduceCtorEq, false_iff]
    omega
  · simp only [reduceCtorEq, false_iff]
    omega
  · simp only [reduceCtorEq, false_iff]
    omega
  · simp only [reduceCtorEq, false_iff]
    cases listening <;> simp_all
  · simp only [reduceCtorEq, false_iff]
    cases unconnected <;> simp_all
  · simp only [true_iff]
    cases listening <;> cases unconnected <;> simp_all <;> omega

theorem validate_error_isUnsupported (domain sotype proto : Int) (listening unconnected : Bool)
    (e : Error) (h : RegisterSocket.validate domain sotype proto listening unconnected = .error e) :
    e.isUnsupported = true := by
  unfold RegisterSocket.validate at h
  split_ifs at h <;> cases h <;> rfl

/-- C8: for every socket description (family, type, protocol, listening,
unconnected): the validation of `RegisterSocket` passes if and only if the
family is INET or INET6 and either the type is stream, the protocol TCP and
the socket listening, or the type is datagram, the protocol UDP and the socket
unconnected.  For every other socket `RegisterSocket` returns an error and
leaves the state, label allocator and destination table included, as it was;
when the socket could be inspected the error is one of the Unsupported
errors.  In particular a stream socket that is not listening is rejected. -/
theorem RegisterSocket_validation (d : Dispatcher) (label : GoString) (conn : Conn) :
    (RegisterSocket.validate conn.domain conn.sotype conn.proto conn.listening conn.unconnected
        = .ok ()
      ↔ (conn.domain = unix.AF_INET ∨ conn.domain = unix.AF_INET6)
        ∧ ((conn.sotype = unix.SOCK_STREAM ∧ conn.proto = unix.IPPROTO_TCP
              ∧ conn.listening = true)
          ∨ (conn.sotype = unix.SOCK_DGRAM ∧ conn.proto = unix.IPPROTO_UDP
              ∧ conn.unconnected = true)))
    ∧ (RegisterSocket.validate conn.domain conn.sotype conn.proto conn.listening conn.unconnected
          ≠ .ok () →
        ∃ e, RegisterSocket d label conn = (.error e, d)
          ∧ (conn.syscallConnErr = false → conn.controlErr = false → conn.opErr = false →
              e.isUnsupported = true))
    ∧ (conn.sotype = unix.SOCK_STREAM → conn.listening = false →
        RegisterSocket.validate conn.domain conn.sotype conn.proto conn.listening
          conn.unconnected ≠ .ok ()) := by
  refine ⟨validate_ok_iff _ _ _ _ _, ?_, ?_⟩
  · intro hv
    unfold RegisterSocket
    by_cases h1 : conn.syscallConnErr = true
    · exact ⟨.rawConn, by simp only [h1, if_true], fun h => by simp [h] at h1⟩
    by_cases h2 : conn.controlErr = true
    · exact ⟨.controlGetsockopt, by simp [h1, h2], fun _ h => by simp [h] at h2⟩
    by_cases h3 : conn.opErr = true
    · exact ⟨.getsockopt, by simp [h1, h2, h3], fun _ _ h => by simp [h] at h3⟩
    cases hval : RegisterSocket.validate conn.domain conn.sotype conn.proto conn.listening
        conn.unconnected with
    | ok u => exact absurd hval hv
    | error e =>
      refine ⟨e, by simp [h1, h2, h3], fun _ _ _ => ?_⟩
      exact validate_error_isUnsupported _ _ _ _ _ e hval
  · intro hs hl hv
    have := (validate_ok_iff _ _ _ _ _).mp hv
    rw [hs, hl] at this
    simp [unix.SOCK_STREAM, unix.SOCK_DGRAM] at this

/-- When the map update itself fails, `RegisterSocket` returns an error and
keeps the acquired allocator: nothing is released. -/
theorem RegisterSocket_update_error_eq (d : Dispatcher) (label : GoString) (conn : Conn)
    (id : labelID) (acquired : labels)
    (h1 : conn.syscallConnErr = false) (h2 : conn.controlErr = false) (h3 : conn.opErr = false)
    (hv : RegisterSocket.validate conn.domain conn.sotype conn.proto conn.listening
      conn.unconnected = .ok ())
    (hacq : d.labels.Acquire label = .ok (id, acquired))
    (h4 : conn.lookupErr = false) (h5 : conn.controlUpdateErr = false)
    (h6 : conn.updateErr = true) :
    RegisterSocket d label conn = (.error .mapUpdate, { d with labels := acquired }) := by
  unfold RegisterSocket
  simp [h1, h2, h3, hv, hacq, RegisterSocket.store, h4, h5, h6]

/-- C9 (the code at the failing input): on a fresh dispatcher, registering a
listening TCP IPv4 socket under "web" when the kernel refuses the map update
returns the "Map update failed" error, and the allocator keeps "web" with
refcount 1 although it held no label before the call: the reference acquired
at the start of the call is not released. -/
theorem RegisterSocket_update_error_keeps_reference :
    RegisterSocket Dispatcher.fresh (ascii "web")
        ⟨false, false, false, 2, 1, 6, true, true, 77, 77, false, false, true⟩
      = (.error .mapUpdate, ⟨⟨[⟨1, ascii "web", 1⟩]⟩, [], [], []⟩)
    ∧ Dispatcher.fresh.labels.refcount (ascii "web") = 0
    ∧ (RegisterSocket Dispatcher.fresh (ascii "web")
        ⟨false, false, false, 2, 1, 6, true, true, 77, 77, false, false, true⟩).2.labels.refcount
          (ascii "web") = 1 := by
  decide

theorem refcount_acquire {l l' : labels} {name : GoString} {id : labelID}
    (h : l.Acquire name = .ok (id, l')) :
    l'.HasID name id = true ∧ l'.refcount name = l.refcount name + 1 := by
  unfold labels.Acquire at h
  cases hf : l.find name with
  | some e =>
    rw [hf] at h
    simp only [Except.ok.injEq, Prod.mk.injEq] at h
    obtain ⟨rfl, rfl⟩ := h
    have hname := (find_some_mem hf).2
    unfold labels.HasID labels.refcount
    rw [find_mapCount, hf]
    simp [hname]
  | none =>
    rw [hf] at h
    simp only at h
    split at h
    · split at h
      · simp only [Except.ok.injEq, Prod.mk.injEq] at h
        obtain ⟨rfl, rfl⟩ := h
        have hnone : l.entries.find? (fun e => decide (e.Name = name)) = none := hf
        unfold labels.HasID labels.refcount
        rw [hf]
        simp [labels.find, List.find?_append, hnone]
      · cases h
    · cases h

/-- What a successful `RegisterSocket` did. -/
theorem RegisterSocket_ok {d d' : Dispatcher} {label : GoString} {conn : Conn}
    (h : RegisterSocket d label conn = (.ok (), d')) :
    ∃ id acquired,
      RegisterSocket.validate conn.domain conn.sotype conn.proto conn.listening
        conn.unconnected = .ok ()
      ∧ d.labels.Acquire label = .ok (id, acquired)
      ∧ d'.labels = acquired
      ∧ d'.MapBindings = d.MapBindings
      ∧ d'.MapDestinations = d.MapDestinations.Update
          ⟨toUint8 conn.domain, toUint8 conn.proto, id⟩ conn.socket := by
  unfold RegisterSocket at h
  split_ifs at h with h1 h2 h3
  · simp at h
  · simp at h
  · simp at h
  cases hv : RegisterSocket.validate conn.domain conn.sotype conn.proto conn.listening
      conn.unconnected with
  | error e => rw [hv] at h; simp at h
  | ok u =>
    rw [hv] at h
    simp only at h
    cases hacq : d.labels.Acquire label with
    | error e => rw [hacq] at h; simp at h
    | ok r =>
      obtain ⟨id, acquired⟩ := r
      rw [hacq] at h
      by_cases h4 : conn.lookupErr = true
      · simp [RegisterSocket.store, h4] at h
      by_cases h5 : conn.controlUpdateErr = true
      · simp [RegisterSocket.store, h4, h5] at h
      by_cases h6 : conn.updateErr = true
      · simp [RegisterSocket.store, h4, h5, h6] at h
      simp only [RegisterSocket.store, h4, h5, h6, Bool.false_eq_true, if_false, Prod.mk.injEq,
        true_and] at h
      subst h
      exact ⟨id, acquired, rfl, rfl, rfl, rfl, rfl⟩

theorem countP_Update_self {κ ν : Type} [DecidableEq κ] (m : KMap κ ν) (k : κ) (v : ν) :
    (m.Update k v).countP (fun e => decide (e.1 = k)) = 1 := by
  unfold KMap.Update
  rw [List.countP_cons, List.countP_filter]
  have : List.countP (fun a => decide (a.1 = k) && decide (a.1 ≠ k)) m = 0 := by
    rw [List.countP_eq_zero]
    intro a _
    simp
  simp [this]

/-- C10: for every label and socket, when `RegisterSocket` succeeds: the
socket passed validation; the destination table holds exactly one entry for
the key (family, protocol, id of the label), whose family and protocol are
those of the socket; that entry refers to the socket just registered, whatever
was stored under the key before; every other destination key is unchanged; the
binding table is unchanged; and the refcount of the label is exactly one more
than before the call, also when an existing destination was replaced. -/
theorem RegisterSocket_success (d d' : Dispatcher) (label : GoString) (conn : Conn)
    (h : RegisterSocket d label conn = (.ok (), d')) :
    ∃ id, d'.labels.HasID label id = true
      ∧ ((toUint8 conn.domain : Int) = conn.domain ∧ (toUint8 conn.proto : Int) = conn.proto)
      ∧ d'.MapDestinations.Lookup ⟨toUint8 conn.domain, toUint8 conn.proto, id⟩
          = some conn.socket
      ∧ d'.MapDestinations.countP
          (fun e => decide (e.1 = ⟨toUint8 conn.domain, toUint8 conn.proto, id⟩)) = 1
      ∧ (∀ k', k' ≠ (⟨toUint8 conn.domain, toUint8 conn.proto, id⟩ : destinationKey) →
          d'.MapDestinations.Lookup k' = d.MapDestinations.Lookup k')
      ∧ d'.MapBindings = d.MapBindings
      ∧ d'.labels.refcount label = d.labels.refcount label + 1 := by
  obtain ⟨id, acquired, hv, hacq, hl, hb, hd⟩ := RegisterSocket_ok h
  obtain ⟨hid, hcount⟩ := refcount_acquire hacq
  have hvalid := (validate_ok_iff _ _ _ _ _).mp hv
  refine ⟨id, hl ▸ hid, ?_, ?_, ?_, ?_, hb, hl ▸ hcount⟩
  · simp only [unix.AF_INET, unix.AF_INET6, unix.SOCK_STREAM, unix.SOCK_DGRAM,
      unix.IPPROTO_TCP, unix.IPPROTO_UDP] at hvalid
    unfold toUint8
    omega
  · rw [hd]; exact KMap.Lookup_Update_self _ _ _
  · rw [hd]; exact countP_Update_self _ _ _
  · intro k' hk'
    rw [hd]; exact KMap.Lookup_Update_ne _ _ _ _ hk'

theorem RegisterSocket_success_witness :
    ∃ id, (RegisterSocket
        (RegisterSocket Dispatcher.fresh (ascii "web")
          ⟨false, false, false, 2, 1, 6, true, true, 77, 77, false, false, false⟩).2
        (ascii "web")
        ⟨false, false, false, 2, 1, 6, true, true, 78, 78, false, false, false⟩).2.MapDestinations.Lookup
          ⟨2, 6, id⟩ = some 78
      ∧ (RegisterSocket
        (RegisterSocket Dispatcher.fresh (ascii "web")
          ⟨false, false, false, 2, 1, 6, true, true, 77, 77, false, false, false⟩).2
        (ascii "web")
        ⟨false, false, false, 2, 1, 6, true, true, 78, 78, false, false, false⟩).2.labels.refcount
          (ascii "web") = 2 :=
  match RegisterSocket_success
      (RegisterSocket Dispatcher.fresh (ascii "web")
        ⟨false, false, false, 2, 1, 6, true, true, 77, 77, false, false, false⟩).2
      (RegisterSocket
        (RegisterSocket Dispatcher.fresh (ascii "web")
          ⟨false, false, false, 2, 1, 6, true, true, 77, 77, false, false, false⟩).2
        (ascii "web")
        ⟨false, false, false, 2, 1, 6, true, true, 78, 78, false, false, false⟩).2
      (ascii "web") ⟨false, false, false, 2, 1, 6, true, true, 78, 78, false, false, false⟩
      (by decide) with
  | ⟨id, _, _, hl, _, _, _, hc⟩ => ⟨id, hl, hc.trans (by decide)⟩

/-! ## Adding a binding over the key of another label -/

/-- C2 (amended): for any two bindings with the same key and different labels,
on a state that satisfies the invariant: once `AddBinding` of the first has
succeeded, `AddBinding` of the second succeeds too whenever its label can be
acquired and the kernel accepts the update.  It overwrites the entry: the
binding table then holds for the key the id of the second label, which the
allocator holds, and the entry of every other key is unchanged.  The
following `Bindings()` returns a list when `labels.List()` and the iteration
do not fail, and every list it returns contains the entry with the second
label for the key and no other entry for the key. -/
theorem AddBinding_same_key_other_label (d d1 : Dispatcher) (first second : Binding)
    (key : bindingKey) (updateErr : Bool) (id2 : labelID) (acquired : labels)
    (hinv : d.Inv) (hk1 : first.key = .ok key) (hk2 : second.key = .ok key)
    (hne : first.Label ≠ second.Label)
    (h1 : AddBinding d first updateErr = (.ok (), d1))
    (hacq : d1.labels.Acquire second.Label = .ok (id2, acquired)) :
    AddBinding d1 second false
        = (.ok (), { d1 with labels := acquired,
                             MapBindings := d1.MapBindings.Update key id2 })
      ∧ (d1.MapBindings.Update key id2).Lookup key = some id2
      ∧ acquired.HasID second.Label id2 = true
      ∧ (∀ k', k' ≠ key →
          (d1.MapBindings.Update key id2).Lookup k' = d1.MapBindings.Lookup k')
      ∧ (∃ bs, Bindings { d1 with labels := acquired,
                                  MapBindings := d1.MapBindings.Update key id2 }
                 false none = .ok bs)
      ∧ ∀ listErr iterErr bs,
          Bindings { d1 with labels := acquired,
                             MapBindings := d1.MapBindings.Update key id2 }
            listErr iterErr = .ok bs →
          newBindingFromBPF second.Label key ∈ bs
            ∧ ∀ x ∈ bs, x.key = .ok key → x = newBindingFromBPF second.Label key := by
  have hwf := hinv.wf
  have hinv1 : d1.Inv := by
    have := Inv_AddBinding hinv first updateErr
    rw [h1] at this
    exact this
  obtain ⟨id1, l1, key1, hacq1, hkey1, -, -, rfl⟩ := AddBinding_ok hwf.counts h1
  rw [hk1] at hkey1
  simp only [Except.ok.injEq] at hkey1
  subst hkey1
  obtain ⟨hwf1, hid1, -⟩ := acquire_spec hwf hacq1
  simp only at hacq
  obtain ⟨hwf2, hid2, -⟩ := acquire_spec hwf1 hacq
  have hid1' := HasID_acquire hid1 hacq
  have hids : id1 ≠ id2 := by
    intro heq
    rw [heq] at hid1'
    exact hne (HasID_inj hwf2 hid1' hid2)
  have hlpm : KMap.LookupLPM (d.MapBindings.Update key id1) key = some id1 :=
    KMap.LookupLPM_of_Lookup (KMap.Lookup_Update_self _ _ _)
  have hadd : AddBinding
      ⟨l1, d.MapBindings.Update key id1, d.MapDestinations, d.stdout⟩ second false
        = (.ok (), ⟨acquired, KMap.Update (d.MapBindings.Update key id1) key id2,
            d.MapDestinations, d.stdout⟩) := by
    rw [AddBinding_eq _ second false hwf1.counts]
    simp only [hacq, hk2, hlpm, Option.some.injEq, hids, if_false,
      Bool.false_eq_true]
  have hinv2 : Dispatcher.Inv ⟨acquired, KMap.Update (d.MapBindings.Update key id1) key id2,
      d.MapDestinations, d.stdout⟩ := by
    have := Inv_AddBinding hinv1 second false
    rw [hadd] at this
    exact this
  have hlabel : goMapIndex acquired.List id2 = second.Label := by
    obtain ⟨e, hf, he⟩ := find_of_HasID hid2
    have hmem := find_some_mem hf
    rw [← he, goMapIndex_List hwf2 hmem.1, hmem.2]
  refine ⟨hadd, KMap.Lookup_Update_self _ _ _, hid2,
    fun k' hk' => KMap.Lookup_Update_ne _ _ _ _ hk', ⟨_, Bindings_eq_ok hinv2⟩, ?_⟩
  intro listErr iterErr bs hbs
  obtain ⟨-, -, -, rfl⟩ := Bindings_ok_inv hbs
  refine ⟨?_, ?_⟩
  · rw [mem_sortSlice, List.mem_map]
    refine ⟨(key, id2), List.mem_cons_self _ _, ?_⟩
    unfold Dispatcher.bindingOf
    simp only
    rw [hlabel]
  · intro x hx hxkey
    rw [mem_sortSlice, List.mem_map] at hx
    obtain ⟨e, he, rfl⟩ := hx
    have hkeys := hinv2.keys e he
    simp only [KMap.Update, List.mem_cons, List.mem_filter] at he
    rcases he with rfl | ⟨-, hne'⟩
    · unfold Dispatcher.bindingOf
      simp only
      rw [hlabel]
    · exfalso
      unfold Dispatcher.bindingOf at hxkey
      rw [key_newBindingFromBPF _ _ hkeys] at hxkey
      have : e.1 = key := Except.ok.inj hxkey
      simp [this] at hne'

theorem AddBinding_same_key_other_label_witness :
    AddBinding (AddBinding Dispatcher.fresh ⟨ascii "a", TCP, ⟨[10, 0, 0, 0], ⟨8, 32⟩⟩, 0⟩ false).2
        ⟨ascii "b", TCP, ⟨[10, 0, 0, 0], ⟨8, 32⟩⟩, 0⟩ false
      = (.ok (), ⟨⟨[⟨1, ascii "a", 1⟩, ⟨2, ascii "b", 1⟩]⟩,
          [(⟨104, TCP, 0, v4InV6Prefix ++ [10, 0, 0, 0]⟩, 2)], [], []⟩) :=
  (AddBinding_same_key_other_label Dispatcher.fresh _ ⟨ascii "a", TCP, ⟨[10, 0, 0, 0], ⟨8, 32⟩⟩, 0⟩
    ⟨ascii "b", TCP, ⟨[10, 0, 0, 0], ⟨8, 32⟩⟩, 0⟩ ⟨104, TCP, 0, v4InV6Prefix ++ [10, 0, 0, 0]⟩
    false 2 ⟨[⟨1, ascii "a", 1⟩, ⟨2, ascii "b", 1⟩]⟩ Inv_fresh (by decide) (by decide)
    (by decide) (by decide) (by decide)).1

/-- C2 (counterexample): on an empty dispatcher `AddBinding("a", TCP,
10.0.0.0/8, 0)` succeeds, and then `AddBinding("b", TCP, 10.0.0.0/8, 0)`, which
has the identical key, succeeds as well instead of failing: `Bindings()` then
holds the binding labelled "b" and not the one labelled "a", and the allocator
holds both labels. -/
theorem AddBinding_same_key_other_label_counterexample :
    (AddBinding Dispatcher.fresh ⟨ascii "a", TCP, ⟨[10, 0, 0, 0], ⟨8, 32⟩⟩, 0⟩ false).1 = .ok ()
    ∧ Binding.key ⟨ascii "a", TCP, ⟨[10, 0, 0, 0], ⟨8, 32⟩⟩, 0⟩
        = Binding.key ⟨ascii "b", TCP, ⟨[10, 0, 0, 0], ⟨8, 32⟩⟩, 0⟩
    ∧ (AddBinding
        (AddBinding Dispatcher.fresh ⟨ascii "a", TCP, ⟨[10, 0, 0, 0], ⟨8, 32⟩⟩, 0⟩ false).2
        ⟨ascii "b", TCP, ⟨[10, 0, 0, 0], ⟨8, 32⟩⟩, 0⟩ false).1 = .ok ()
    ∧ Bindings (AddBinding
        (AddBinding Dispatcher.fresh ⟨ascii "a", TCP, ⟨[10, 0, 0, 0], ⟨8, 32⟩⟩, 0⟩ false).2
        ⟨ascii "b", TCP, ⟨[10, 0, 0, 0], ⟨8, 32⟩⟩, 0⟩ false).2 false none
        = .ok [⟨ascii "b", TCP, ⟨[10, 0, 0, 0], ⟨8, 32⟩⟩, 0⟩]
    ∧ (AddBinding
        (AddBinding Dispatcher.fresh ⟨ascii "a", TCP, ⟨[10, 0, 0, 0], ⟨8, 32⟩⟩, 0⟩ false).2
        ⟨ascii "b", TCP, ⟨[10, 0, 0, 0], ⟨8, 32⟩⟩, 0⟩ false).2.labels
        = ⟨[⟨1, ascii "a", 1⟩, ⟨2, ascii "b", 1⟩]⟩ := by
  decide

/-! ## When the listing fails -/

theorem collect_error (L : KMap labelID GoString) :
    ∀ (m : List (bindingKey × labelID)) (acc : List Binding) (e : Error),
      Bindings.collect L m acc = .error e →
      ∃ x ∈ m, goMapIndex L x.2 = [] ∧ e = .noLabel x.2 := by
  intro m
  induction m with
  | nil => intro acc e h; simp [Bindings.collect] at h
  | cons y m ih =>
    intro acc e h
    obtain ⟨key, id⟩ := y
    unfold Bindings.collect at h
    simp only at h
    split at h
    · rename_i hnil
      simp only [Except.error.injEq] at h
      exact ⟨(key, id), List.mem_cons_self _ _, hnil, h.symm⟩
    · obtain ⟨x, hx, hx'⟩ := ih _ _ h
      exact ⟨x, List.mem_cons_of_mem _ hx, hx'⟩

theorem goMapIndex_eq_nil_iff (L : KMap labelID GoString) (id : labelID) :
    goMapIndex L id = [] ↔ L.Lookup id = none ∨ L.Lookup id = some [] := by
  unfold goMapIndex
  cases h : L.Lookup id with
  | none => simp
  | some l => simp

theorem Bindings_error_cases {d : Dispatcher} {listErr : Bool} {iterErr : Option Nat}
    {e : Error} (h : Bindings d listErr iterErr = .error e) :
    (e = .listLabels ∧ listErr = true) ∨ (e = .iterateBindings ∧ iterErr.isSome = true)
      ∨ ∃ x ∈ d.MapBindings, e = .noLabel x.2 ∧ goMapIndex d.labels.List x.2 = [] := by
  unfold Bindings at h
  cases listErr with
  | true =>
    simp only [if_true, Except.error.injEq] at h
    exact Or.inl ⟨h.symm, rfl⟩
  | false =>
    simp only [Bool.false_eq_true, if_false] at h
    cases hc : Bindings.collect d.labels.List (Bindings.visited d.MapBindings iterErr) [] with
    | error e' =>
      rw [hc] at h
      simp only [Except.error.injEq] at h
      obtain ⟨x, hx, hnil, hx'⟩ := collect_error _ _ _ _ hc
      have hmem : x ∈ d.MapBindings := by
        cases iterErr with
        | none => exact hx
        | some n => exact List.mem_of_mem_take hx
      exact Or.inr (Or.inr ⟨x, hmem, h ▸ hx', hnil⟩)
    | ok r =>
      rw [hc] at h
      simp only at h
      cases iterErr with
      | none => simp at h
      | some n =>
        simp only [Option.isSome_some, if_true, Except.error.injEq] at h
        exact Or.inr (Or.inl ⟨h.symm, rfl⟩)

/-- C11: for every binding table and label listing, an id having no label
when reading the listing at it gives the empty string (the source's
`label == ""`): a `Bindings()` in which `labels.List()` and the iteration do
not fail fails, without a list, if and only if some entry of the binding table
carries an id that has no label, and its error is "no label for id" (Corrupt)
for the id of such an entry.  Whatever else fails, a "no label for id" error
names the id of an entry that has no label, and no list is returned while some
entry has no label.  When every entry's id has a label, `Bindings()` succeeds
and returns exactly one binding per table entry, each carrying the label
listed for its id.  An id has no label exactly when the listing has no row
for it or lists the empty string for it, and the latter does not occur when no
row of the allocator has the empty name. -/
theorem Bindings_corrupt_iff (d : Dispatcher) :
    ((∃ e, Bindings d false none = .error e) ↔
        ∃ x ∈ d.MapBindings, goMapIndex d.labels.List x.2 = [])
    ∧ (∀ e, Bindings d false none = .error e →
        ∃ x ∈ d.MapBindings, e = .noLabel x.2 ∧ goMapIndex d.labels.List x.2 = [])
    ∧ (∀ listErr iterErr id, Bindings d listErr iterErr = .error (.noLabel id) →
        ∃ x ∈ d.MapBindings, x.2 = id ∧ goMapIndex d.labels.List x.2 = [])
    ∧ ((∃ x ∈ d.MapBindings, goMapIndex d.labels.List x.2 = []) →
        ∀ listErr iterErr, ∃ e, Bindings d listErr iterErr = .error e)
    ∧ ((∀ x ∈ d.MapBindings, goMapIndex d.labels.List x.2 ≠ []) →
        ∃ bs, Bindings d false none = .ok bs
          ∧ bs.Perm (d.MapBindings.map d.bindingOf)
          ∧ bs.length = d.MapBindings.length
          ∧ ∀ x ∈ d.MapBindings, newBindingFromBPF (goMapIndex d.labels.List x.2) x.1 ∈ bs)
    ∧ (∀ id, goMapIndex d.labels.List id = []
        ↔ d.labels.List.Lookup id = none ∨ d.labels.List.Lookup id = some [])
    ∧ ((∀ r ∈ d.labels.entries, r.Name ≠ []) →
        ∀ id, goMapIndex d.labels.List id = [] ↔ d.labels.List.Lookup id = none) := by
  have herr : ∀ e, Bindings d false none = .error e →
      ∃ x ∈ d.MapBindings, e = .noLabel x.2 ∧ goMapIndex d.labels.List x.2 = [] := by
    intro e he
    rcases Bindings_error_cases he with ⟨-, h⟩ | ⟨-, h⟩ | h
    · cases h
    · cases h
    · exact h
  have hfail : (∃ x ∈ d.MapBindings, goMapIndex d.labels.List x.2 = []) →
      ∀ listErr iterErr, ∃ e, Bindings d listErr iterErr = .error e := by
    rintro ⟨x, hx, hnil⟩ listErr iterErr
    cases hb : Bindings d listErr iterErr with
    | error e => exact ⟨e, rfl⟩
    | ok bs =>
      exfalso
      obtain ⟨-, -, hall, -⟩ := Bindings_ok_inv hb
      exact hall x hx hnil
  refine ⟨⟨?_, fun h => hfail h false none⟩, herr, ?_, hfail, ?_,
    fun id => goMapIndex_eq_nil_iff _ id, ?_⟩
  · rintro ⟨e, he⟩
    obtain ⟨x, hx, -, hl⟩ := herr e he
    exact ⟨x, hx, hl⟩
  · intro listErr iterErr id h
    rcases Bindings_error_cases h with ⟨h, -⟩ | ⟨h, -⟩ | ⟨x, hx, he, hnil⟩
    · cases h
    · cases h
    · simp only [Error.noLabel.injEq] at he
      exact ⟨x, hx, he.symm, hnil⟩
  · intro hall
    refine ⟨_, Bindings_eq_ok_of_labelled hall, List.perm_insertionSort _ _, ?_, ?_⟩
    · unfold sortSlice
      rw [(List.perm_insertionSort _ _).length_eq, List.length_map]
    · intro x hx
      rw [mem_sortSlice, List.mem_map]
      exact ⟨x, hx, rfl⟩
  · intro hnames id
    rw [goMapIndex_eq_nil_iff]
    constructor
    · rintro (h | h)
      · exact h
      · exfalso
        have hmem := KMap.mem_of_Lookup h
        simp only [labels.List, List.mem_map, Prod.mk.injEq] at hmem
        obtain ⟨r, hr, -, hname⟩ := hmem
        exact hnames r hr hname
    · exact Or.inl

theorem Bindings_corrupt_iff_witness :
    ∃ bs, Bindings (run [.AddBinding ⟨ascii "dns", UDP, ⟨[192, 0, 2, 0], ⟨24, 32⟩⟩, 53⟩ false])
        false none = .ok bs
      ∧ bs.length = 1
      ∧ newBindingFromBPF (ascii "dns") ⟨120, UDP, 53, v4InV6Prefix ++ [192, 0, 2, 0]⟩ ∈ bs :=
  match (Bindings_corrupt_iff
      (run [.AddBinding ⟨ascii "dns", UDP, ⟨[192, 0, 2, 0], ⟨24, 32⟩⟩, 53⟩ false])).2.2.2.2.1
      (by decide) with
  | ⟨bs, hbs, _, hlen, hmem⟩ =>
    ⟨bs, hbs, hlen, hmem (⟨120, UDP, 53, v4InV6Prefix ++ [192, 0, 2, 0]⟩, 1) (by decide)⟩

/-! ## Creating the dispatcher -/

theorem isPrefixOf_self_append (p q : Path) : p.isPrefixOf (p ++ q) = true := by
  rw [List.isPrefixOf_iff_prefix]
  exact List.prefix_append p q

theorem isPrefixOf_self (p : Path) : p.isPrefixOf p = true := by
  exact List.isPrefixOf_iff_prefix.mpr (List.prefix_refl p)

theorem filter_create_under (w : World) (p q : Path) :
    (w.create (p ++ q)).fs.filter (fun x => !p.isPrefixOf x)
      = w.fs.filter (fun x => !p.isPrefixOf x) := by
  simp [World.create, List.filter_append, isPrefixOf_self_append]

theorem closeOnError_fst (h : Handle) (r : Except CreateError Dispatcher × World) :
    (CreateDispatcher.closeOnError h r).1 = r.1 := by
  unfold CreateDispatcher.closeOnError
  split <;> simp_all

theorem closeOnError_fs (h : Handle) (r : Except CreateError Dispatcher × World) :
    (CreateDispatcher.closeOnError h r).2.fs = r.2.fs := by
  unfold CreateDispatcher.closeOnError
  split <;> simp [World.Close]

theorem deferClose_fs (h : Handle) (r : Except CreateError Dispatcher × World) :
    (CreateDispatcher.deferClose h r).2.fs = r.2.fs := rfl

theorem pinMaps_fs (pinPath : Path) (pinErr : Option Nat) :
    ∀ (maps : List String) (i : Nat) (w : World),
      (CreateDispatcher.pinMaps pinPath pinErr maps i w).2.fs.filter
          (fun x => !pinPath.isPrefixOf x)
        = w.fs.filter (fun x => !pinPath.isPrefixOf x) := by
  intro maps
  induction maps with
  | nil => intro i w; rfl
  | cons name rest ih =>
    intro i w
    unfold CreateDispatcher.pinMaps
    split
    · rfl
    · rw [ih, filter_create_under]

/-- Whatever happens after the state directory is created, the paths that are
not at or below it stay as they are. -/
theorem load_fs (pinPath : Path) (maps : List String) (f : CreateFaults) (w : World) :
    (CreateDispatcher.load pinPath maps f w).2.fs.filter (fun x => !pinPath.isPrefixOf x)
      = w.fs.filter (fun x => !pinPath.isPrefixOf x) := by
  unfold CreateDispatcher.load
  by_cases h1 : f.openErr = true
  · simp [h1]
  simp only [h1, Bool.false_eq_true, if_false, closeOnError_fs]
  by_cases h2 : f.lockErr = true
  · simp [h2, World.opened]
  by_cases h3 : f.labelsErr = true
  · simp [h2, h3, World.opened]
  simp only [h2, h3, Bool.false_eq_true, if_false, closeOnError_fs]
  by_cases h4 : f.collectionErr = true
  · have := filter_create_under w pinPath ["labels"]
    simp only [World.create] at this
    simp [h4, World.opened, World.create, this]
  simp only [h4, Bool.false_eq_true, if_false, deferClose_fs]
  have hpin := pinMaps_fs pinPath f.pinErr maps 0
    (((w.opened .dir).create (pinPath ++ ["labels"])).opened .labels |>.opened .coll)
  have hbase : ((((w.opened .dir).create (pinPath ++ ["labels"])).opened .labels).opened
      .coll).fs.filter (fun x => !pinPath.isPrefixOf x)
        = w.fs.filter (fun x => !pinPath.isPrefixOf x) := by
    simp [World.opened, World.create, List.filter_append, isPrefixOf_self_append]
  rw [hbase] at hpin
  cases hp : CreateDispatcher.pinMaps pinPath f.pinErr maps 0
      ((((w.opened .dir).create (pinPath ++ ["labels"])).opened .labels).opened .coll) with
  | mk failed w1 =>
    rw [hp] at hpin
    simp only at hpin
    cases failed with
    | some name => simpa using hpin
    | none =>
      simp only
      by_cases h5 : f.assignErr = true
      · simpa [h5] using hpin
      simp only [h5, Bool.false_eq_true, if_false, closeOnError_fs]
      by_cases h6 : f.attachErr = true
      · simpa [h6, World.opened] using hpin
      simp only [h6, Bool.false_eq_true, if_false, closeOnError_fs]
      by_cases h7 : f.pinLinkErr = true
      · simpa [h7, World.opened] using hpin
      simp only [h7, Bool.false_eq_true, if_false]
      have := filter_create_under ((w1.opened .bpf).opened .attach) pinPath ["link"]
      rw [this]
      simpa [World.opened] using hpin

theorem pinMaps_none (pinPath : Path) (pinErr : Option Nat) :
    ∀ (maps : List String) (j : Nat) (w : World),
      (CreateDispatcher.pinMaps pinPath pinErr maps j w).1 = none →
      ∀ i, pinErr = some i → ¬ (j ≤ i ∧ i < j + maps.length) := by
  intro maps
  induction maps with
  | nil => intro j w _ i _ hi; simp at hi; omega
  | cons name rest ih =>
    intro j w h i hi hrange
    unfold CreateDispatcher.pinMaps at h
    split at h
    · cases h
    · rename_i hne
      have hij : i ≠ j := by
        intro heq
        exact hne (heq ▸ hi)
      apply ih (j + 1) _ h i hi
      simp only [List.length_cons] at hrange
      omega

/-- The cases of a failing `CreateDispatcher`: either it returns before it
creates the state directory and the file system is as it was, or it created
the directory and what is left is the file system without the directory and
everything below it. -/
theorem CreateDispatcher_error_cases {pinPath : Path} {maps : List String} {f : CreateFaults}
    {w w' : World} {e : CreateError}
    (h : CreateDispatcher pinPath maps f w = (.error e, w')) :
    (w'.fs = w.fs ∧ (f.specsErr = true ∨ f.netnsErr = true ∨ (pinPath ∈ w.fs ∧ e = .loaded)
        ∨ (pinPath ∉ w.fs ∧ f.mkdirErr = true)))
    ∨ (f.specsErr = false ∧ f.netnsErr = false ∧ pinPath ∉ w.fs ∧ f.mkdirErr = false
        ∧ w'.fs = w.fs.filter (fun q => !pinPath.isPrefixOf q)) := by
  unfold CreateDispatcher at h
  by_cases h1 : f.specsErr = true
  · simp only [h1, if_true, Prod.mk.injEq] at h
    exact Or.inl ⟨by rw [← h.2], Or.inl h1⟩
  by_cases h2 : f.netnsErr = true
  · simp only [h1, h2, if_true, Bool.false_eq_true, if_false, Prod.mk.injEq] at h
    exact Or.inl ⟨by rw [← h.2], Or.inr (Or.inl h2)⟩
  simp only [h1, h2, Bool.false_eq_true, if_false] at h
  have hfst := congrArg Prod.fst h
  have hsnd := congrArg (fun r => r.2.fs) h
  simp only [closeOnError_fst, closeOnError_fs] at hfst hsnd
  by_cases h3 : pinPath ∈ w.fs
  · have h3' : pinPath ∈ (w.opened .netns).fs := h3
    simp only [h3', if_true, Except.error.injEq] at hfst hsnd
    exact Or.inl ⟨hsnd.symm, Or.inr (Or.inr (Or.inl ⟨h3, hfst.symm⟩))⟩
  have h3' : ¬ pinPath ∈ (w.opened .netns).fs := h3
  by_cases h4 : f.mkdirErr = true
  · simp only [h3', h4, if_true, if_false] at hfst hsnd
    exact Or.inl ⟨hsnd.symm, Or.inr (Or.inr (Or.inr ⟨h3, h4⟩))⟩
  simp only [h3', h4, Bool.false_eq_true, if_false] at hfst hsnd
  refine Or.inr ⟨by simpa using h1, by simpa using h2, h3, by simpa using h4, ?_⟩
  unfold CreateDispatcher.onError at hfst hsnd
  cases hl : (CreateDispatcher.load pinPath maps f ((w.opened .netns).create pinPath)).1 with
  | ok d => rw [hl] at hfst; simp only at hfst; rw [hl] at hfst; cases hfst
  | error e' =>
    rw [hl] at hsnd
    simp only [World.RemoveAll] at hsnd
    rw [← hsnd, load_fs]
    simp [World.create, World.opened, List.filter_append, isPrefixOf_self]

theorem load_error (pinPath : Path) (maps : List String) (f : CreateFaults) (w : World)
    (hf : f.openErr = true ∨ f.lockErr = true ∨ f.labelsErr = true ∨ f.collectionErr = true
      ∨ (∃ i, f.pinErr = some i ∧ i < maps.length) ∨ f.assignErr = true ∨ f.attachErr = true
      ∨ f.pinLinkErr = true) :
    ∃ e, (CreateDispatcher.load pinPath maps f w).1 = .error e := by
  unfold CreateDispatcher.load
  by_cases h1 : f.openErr = true
  · exact ⟨.openStateDirectory, by simp [h1]⟩
  simp only [h1, Bool.false_eq_true, if_false, closeOnError_fst]
  by_cases h2 : f.lockErr = true
  · exact ⟨.lock, by simp [h2]⟩
  by_cases h3 : f.labelsErr = true
  · exact ⟨.labels, by simp [h2, h3]⟩
  simp only [h2, h3, Bool.false_eq_true, if_false, closeOnError_fst]
  by_cases h4 : f.collectionErr = true
  · exact ⟨.loadBPF, by simp [h4]⟩
  simp only [h4, Bool.false_eq_true, if_false, CreateDispatcher.deferClose]
  cases hp : CreateDispatcher.pinMaps pinPath f.pinErr maps 0
      ((((w.opened .dir).create (pinPath ++ ["labels"])).opened .labels).opened .coll) with
  | mk failed w1 =>
    cases failed with
    | some name => exact ⟨.pinMap name, rfl⟩
    | none =>
      simp only
      have hnone := pinMaps_none pinPath f.pinErr maps 0 _ (congrArg Prod.fst hp)
      by_cases h5 : f.assignErr = true
      · exact ⟨.assignObjects, by simp [h5]⟩
      simp only [h5, Bool.false_eq_true, if_false, closeOnError_fst]
      by_cases h6 : f.attachErr = true
      · exact ⟨.attachProgram, by simp [h6]⟩
      simp only [h6, Bool.false_eq_true, if_false, closeOnError_fst]
      by_cases h7 : f.pinLinkErr = true
      · exact ⟨.pinLink, by simp [h7]⟩
      exfalso
      rcases hf with h | h | h | h | ⟨i, hi, hlt⟩ | h | h | h
      · exact h1 h
      · exact h2 h
      · exact h3 h
      · exact h4 h
      · exact hnone i hi ⟨Nat.zero_le _, by omega⟩
      · exact h5 h
      · exact h6 h
      · exact h7 h

/-- C12: whenever `CreateDispatcher` returns an error, the state directory
exists afterwards exactly if it existed before, and no path outside it is
touched.  If the directory already existed, the file system is left as it was,
and the error is `ErrLoaded` as soon as the specs were loaded and the
namespace was opened.  If the call created the directory, what is left is the
file system without the directory and everything below it; and whenever a
later step fails (open, lock, labels, load, pin of a map, assign, attach, pin of
the link) the call does return an error, so the directory is removed
recursively before returning. -/
theorem CreateDispatcher_error_directory (pinPath : Path) (maps : List String)
    (f : CreateFaults) (w : World) :
    (∀ e w', CreateDispatcher pinPath maps f w = (.error e, w') →
      (pinPath ∈ w'.fs ↔ pinPath ∈ w.fs)
      ∧ (∀ q, ¬ pinPath <+: q → (q ∈ w'.fs ↔ q ∈ w.fs))
      ∧ (pinPath ∈ w.fs →
          w'.fs = w.fs ∧ (f.specsErr = false → f.netnsErr = false → e = .loaded))
      ∧ (pinPath ∉ w.fs → f.specsErr = false → f.netnsErr = false → f.mkdirErr = false →
          w'.fs = w.fs.filter (fun q => !pinPath.isPrefixOf q)
          ∧ ∀ q ∈ w'.fs, ¬ pinPath <+: q))
    ∧ (pinPath ∉ w.fs → f.specsErr = false → f.netnsErr = false → f.mkdirErr = false →
        (f.openErr = true ∨ f.lockErr = true ∨ f.labelsErr = true ∨ f.collectionErr = true
          ∨ (∃ i, f.pinErr = some i ∧ i < maps.length) ∨ f.assignErr = true
          ∨ f.attachErr = true ∨ f.pinLinkErr = true) →
        ∃ e w', CreateDispatcher pinPath maps f w = (.error e, w')
          ∧ w'.fs = w.fs.filter (fun q => !pinPath.isPrefixOf q)
          ∧ pinPath ∉ w'.fs) := by
  have hfilter : ∀ q, q ∈ w.fs.filter (fun q => !pinPath.isPrefixOf q)
      ↔ q ∈ w.fs ∧ ¬ pinPath <+: q := by
    intro q
    rw [List.mem_filter]
    constructor
    · rintro ⟨hq, hp⟩
      refine ⟨hq, fun hpre => ?_⟩
      rw [List.isPrefixOf_iff_prefix.mpr hpre] at hp
      simp at hp
    · rintro ⟨hq, hp⟩
      refine ⟨hq, ?_⟩
      cases hb : pinPath.isPrefixOf q with
      | false => rfl
      | true => exact absurd (List.isPrefixOf_iff_prefix.mp hb) hp
  have hself : pinPath ∉ w.fs.filter (fun q => !pinPath.isPrefixOf q) := by
    intro hmem
    exact ((hfilter _).mp hmem).2 (List.prefix_refl _)
  have hmain : ∀ e w', CreateDispatcher pinPath maps f w = (.error e, w') →
      (pinPath ∈ w'.fs ↔ pinPath ∈ w.fs)
      ∧ (∀ q, ¬ pinPath <+: q → (q ∈ w'.fs ↔ q ∈ w.fs))
      ∧ (pinPath ∈ w.fs →
          w'.fs = w.fs ∧ (f.specsErr = false → f.netnsErr = false → e = .loaded))
      ∧ (pinPath ∉ w.fs → f.specsErr = false → f.netnsErr = false → f.mkdirErr = false →
          w'.fs = w.fs.filter (fun q => !pinPath.isPrefixOf q)
          ∧ ∀ q ∈ w'.fs, ¬ pinPath <+: q) := by
    intro e w' h
    rcases CreateDispatcher_error_cases h with ⟨hfs, hwhy⟩ | ⟨h1, h2, h3, h4, hfs⟩
    · refine ⟨by rw [hfs], fun q _ => by rw [hfs], fun hin => ⟨hfs, ?_⟩, ?_⟩
      · intro h1 h2
        rcases hwhy with h | h | h | h
        · rw [h1] at h; cases h
        · rw [h2] at h; cases h
        · exact h.2
        · exact absurd hin h.1
      · intro hnot h1 h2 h4
        rcases hwhy with h | h | h | h
        · rw [h1] at h; cases h
        · rw [h2] at h; cases h
        · exact absurd h.1 hnot
        · rw [h4] at h; cases h.2
    · refine ⟨?_, ?_, fun hin => absurd hin h3, fun _ _ _ _ => ⟨hfs, ?_⟩⟩
      · rw [hfs]
        exact ⟨fun hmem => absurd hmem hself, fun hmem => absurd hmem h3⟩
      · intro q hq
        rw [hfs, hfilter]
        exact ⟨fun hmem => hmem.1, fun hmem => ⟨hmem, hq⟩⟩
      · intro q hq
        rw [hfs] at hq
        exact ((hfilter q).mp hq).2
  refine ⟨hmain, ?_⟩
  intro h3 h1 h2 h4 hf
  obtain ⟨e, he⟩ := load_error pinPath maps f ((w.opened .netns).create pinPath) hf
  have hres : (CreateDispatcher pinPath maps f w).1 = .error e := by
    unfold CreateDispatcher
    have h3' : ¬ pinPath ∈ (w.opened .netns).fs := h3
    simp only [h1, h2, h4, h3', Bool.false_eq_true, if_false, closeOnError_fst]
    unfold CreateDispatcher.onError
    rw [he]
  have heq : CreateDispatcher pinPath maps f w
      = (.error e, (CreateDispatcher pinPath maps f w).2) := by
    rw [← hres]
  obtain ⟨-, -, -, hcreated⟩ := hmain e _ heq
  have hfs := (hcreated h3 h1 h2 h4).1
  exact ⟨e, _, heq, hfs, by rw [hfs]; exact hself⟩

theorem CreateDispatcher_error_directory_witness :
    ∃ e w', CreateDispatcher ["sys", "fs", "bpf", "4026531840_dispatcher"]
        ["bindings", "destinations"]
        ⟨false, false, false, false, false, false, false, some 1, false, false, false⟩
        ⟨[["sys"], ["sys", "fs"], ["sys", "fs", "bpf"]], []⟩ = (.error e, w')
      ∧ w'.fs = List.filter
          (fun q => !List.isPrefixOf ["sys", "fs", "bpf", "4026531840_dispatcher"] q)
          [["sys"], ["sys", "fs"], ["sys", "fs", "bpf"]]
      ∧ ["sys", "fs", "bpf", "4026531840_dispatcher"] ∉ w'.fs :=
  (CreateDispatcher_error_directory ["sys", "fs", "bpf", "4026531840_dispatcher"]
    ["bindings", "destinations"]
    ⟨false, false, false, false, false, false, false, some 1, false, false, false⟩
    ⟨[["sys"], ["sys", "fs"], ["sys", "fs", "bpf"]], []⟩).2
    (by decide) rfl rfl rfl (Or.inr (Or.inr (Or.inr (Or.inr (Or.inl ⟨1, rfl, by decide⟩)))))

end Tubular
